import Mathlib

namespace BSat

/-!
Verification of the BSAT competition CDCL solver core
(`src/competition/c/src/solver.c`, `arena.c`, headers `types.h`, `arena.h`,
`watch.h`) against its natural-language specification.

The C data structures and functions are shallowly embedded: machine
integers become `Nat` (the code never relies on 32-bit wraparound in the
fragments modelled here; the `uint32_t` sentinels `UINT32_MAX` and
`UINT32_MAX - 1` are kept as the concrete numerals the C headers define),
C `double`/`float` values become `ℚ` (they are only added, multiplied by
constants and compared in the modelled fragments), flat C arrays become
`List`s or functions out of `Nat`, and in-place mutation becomes explicit
state passing on a `Solver` structure mirroring `struct Solver`.
-/


/-! ## types.h: literals, truth values, sentinels -/

/-- `typedef uint32_t Lit` — encoding `lit = 2 * var + sign`. -/
abbrev Lit := Nat

/-- `typedef uint32_t Var`. -/
abbrev Var := Nat

/-- `typedef uint32_t CRef`. -/
abbrev CRef := Nat

/-- `#define INVALID_CLAUSE UINT32_MAX`. -/
def INVALID_CLAUSE : CRef := 4294967295

/-- `#define BINARY_CONFLICT (UINT32_MAX - 1)`. -/
def BINARY_CONFLICT : CRef := 4294967294

/-- `#define INVALID_LEVEL UINT32_MAX`. -/
def INVALID_LEVEL : Nat := 4294967295

/-- `UINT32_MAX`, used as the "not in heap" sentinel for `heap_pos`. -/
def UINT32_MAX : Nat := 4294967295

/-- `#define INVALID_VAR 0`. -/
def INVALID_VAR : Var := 0

/-- `#define LIT_UNDEF 0`. -/
def LIT_UNDEF : Lit := 0

/-- `static inline Var var(Lit l) { return l >> 1; }` -/
def litVar (l : Lit) : Var := l / 2

/-- `static inline bool sign(Lit l) { return l & 1; }` -/
def litSign (l : Lit) : Bool := l % 2 == 1

/-- `static inline Lit neg(Lit l) { return l ^ 1; }` -/
def litNeg (l : Lit) : Lit := l ^^^ 1

/-- `static inline Lit mkLit(Var v, bool sign) { return (v << 1) | (sign ? 1 : 0); }` -/
def mkLit (v : Var) (s : Bool) : Lit := 2 * v + (if s then 1 else 0)

/-- `typedef enum { UNDEF = 0, FALSE = 1, TRUE = 2 } lbool`. -/
inductive Lbool where
  | UNDEF
  | FALSE
  | TRUE
deriving DecidableEq, Repr

/-- The C idiom `value == (sign(l) ? FALSE : TRUE)`: literal `l` is
currently true under variable value `val`. -/
def litValTrue (val : Lbool) (l : Lit) : Bool :=
  val == (if litSign l then Lbool.FALSE else Lbool.TRUE)

/-- The C idiom `value == (sign(l) ? TRUE : FALSE)`: literal `l` is
currently false under variable value `val`. -/
def litValFalse (val : Lbool) (l : Lit) : Bool :=
  val == (if litSign l then Lbool.TRUE else Lbool.FALSE)

/-- `#define MAX_CLAUSES ((1U << 30) - 1)`. -/
def MAX_CLAUSES : Nat := 1073741823

/-! ## arena.h / arena.c: the clause arena

The C arena is a flat array of 32-bit words: a reserved word at index 0,
then a sequence of clauses, each a 3-word `ClauseHeader`
(`size:28 | flags:4`, `lbd`, `activity`) followed by its literals.  The
embedding stores the same sequence as a list of records; a `CRef` is the
word offset of a clause's header, recomputed from the lengths of the
records before it, exactly as the C code lays them out. -/

/-- One stored clause: the header fields of `ClauseHeader` (the 4-bit
`flags` word split into its `CLAUSE_LEARNED` and `CLAUSE_DELETED` bits;
`CLAUSE_GLUE`/`CLAUSE_FROZEN` are never set by the modelled code) plus
the literal body. -/
structure ClauseRec where
  lits : List Lit
  learned : Bool
  deleted : Bool
  lbd : Nat
  activity : ℚ
deriving DecidableEq, Repr

instance : Inhabited ClauseRec := ⟨⟨[], false, false, 0, 0⟩⟩

/-- `sizeof(ClauseHeader) / sizeof(uint32_t)` = 3 words. -/
def headerWords : Nat := 3

/-- Words occupied by one stored clause: header plus literal body. -/
def clauseWords (c : ClauseRec) : Nat := headerWords + c.lits.length

/-- `struct Arena`: the stored clauses in allocation order, the capacity
in words, and the `wasted` word counter.  `size` is recovered by
`arenaSize`. -/
structure Arena where
  items : List ClauseRec
  capacity : Nat
  wasted : Nat
deriving DecidableEq, Repr

/-- `arena->size`: one reserved word plus the words of all stored
clauses. -/
def arenaSize (a : Arena) : Nat := 1 + (a.items.map clauseWords).sum

/-- Walk the stored clauses, tracking each one's word offset, and return
the clause whose header sits at offset `cref` (if any). -/
def arenaFindAux : List ClauseRec → Nat → CRef → Option ClauseRec
  | [], _, _ => none
  | c :: rest, off, cref =>
    if off = cref then some c else arenaFindAux rest (off + clauseWords c) cref

/-- Dereference a `CRef`, as the C macros `CLAUSE_HEADER`/`CLAUSE_LITS`
do via `&arena->memory[cref]`. -/
def arenaGet (a : Arena) (cref : CRef) : Option ClauseRec :=
  arenaFindAux a.items 1 cref

/-- In-place update of the clause stored at offset `cref`. -/
def arenaSetAux : List ClauseRec → Nat → CRef → (ClauseRec → ClauseRec) → List ClauseRec
  | [], _, _, _ => []
  | c :: rest, off, cref, f =>
    if off = cref then f c :: rest
    else c :: arenaSetAux rest (off + clauseWords c) cref f

/-- In-place update of the clause stored at offset `cref`. -/
def arenaSet (a : Arena) (cref : CRef) (f : ClauseRec → ClauseRec) : Arena :=
  { a with items := arenaSetAux a.items 1 cref f }

/-- `CLAUSE_SIZE(arena, cref)`. -/
def clauseSizeAt (a : Arena) (c : CRef) : Nat :=
  ((arenaGet a c).getD default).lits.length

/-- `CLAUSE_LITS(arena, cref)` (read). -/
def clauseLitsAt (a : Arena) (c : CRef) : List Lit :=
  ((arenaGet a c).getD default).lits

/-- `static inline bool clause_deleted(arena, cref)`. -/
def clause_deleted (a : Arena) (c : CRef) : Bool :=
  ((arenaGet a c).getD default).deleted

/-- `static inline bool clause_learned(arena, cref)`. -/
def clause_learned (a : Arena) (c : CRef) : Bool :=
  ((arenaGet a c).getD default).learned

/-- `static inline uint32_t clause_lbd(arena, cref)`. -/
def clause_lbd (a : Arena) (c : CRef) : Nat :=
  ((arenaGet a c).getD default).lbd

/-- `static inline float clause_activity(arena, cref)`. -/
def clause_activity (a : Arena) (c : CRef) : ℚ :=
  ((arenaGet a c).getD default).activity

/-- `static inline void set_clause_lbd(arena, cref, lbd)`. -/
def set_clause_lbd (a : Arena) (c : CRef) (lbd : Nat) : Arena :=
  arenaSet a c (fun r => { r with lbd := lbd })

/-- The capacity-growth loop of `arena_grow`:
`while (new_capacity < arena->size + needed) { new_capacity *= 1.5;
if (new_capacity > MAX_CLAUSES) fail; }`.  The `double` multiplication
by 1.5 truncated back to `size_t` is `cap * 3 / 2` exactly for the
capacities in range.  Fuel bounds the loop (a start capacity of 0 or 1
never grows: the C loop would spin forever; the model returns failure). -/
def growCapLoop : Nat → Nat → Nat → Option Nat
  | 0, _, _ => none
  | fuel + 1, cap, target =>
    if cap ≥ target then some cap
    else
      let cap' := cap * 3 / 2
      if cap' > MAX_CLAUSES then none else growCapLoop fuel cap' target

/-- `static bool arena_grow(Arena* arena, size_t needed)`: grow
`capacity` by factor 1.5 until it covers `size + needed`, failing past
`MAX_CLAUSES`.  (`realloc` is assumed to succeed.)  The fuel
`arenaSize a + needed + 2` dominates the number of growth steps for any
capacity ≥ 2. -/
def arena_grow (a : Arena) (needed : Nat) : Option Arena :=
  match growCapLoop (arenaSize a + needed + 2) a.capacity (arenaSize a + needed) with
  | some cap => some { a with capacity := cap }
  | none => none

/-- `CRef arena_alloc(Arena*, const Lit*, uint32_t size, bool learned)`:
append a fresh header (`lbd = 0`, `activity = 0`, flags `LEARNED` or
`ORIGINAL`) and the literal body at the current bump offset, growing
first if needed; returns `INVALID_CLAUSE` on failure. -/
def arena_alloc (a : Arena) (lits : List Lit) (learned : Bool) : CRef × Arena :=
  match (if arenaSize a + (headerWords + lits.length) > a.capacity
         then arena_grow a (headerWords + lits.length) else some a) with
  | none => (INVALID_CLAUSE, a)
  | some a' => (arenaSize a', { a' with items := a'.items ++ [⟨lits, learned, false, 0, 0⟩] })

/-- `void arena_delete(Arena*, CRef)`: set the `DELETED` flag (if not
already set) and add the clause's word count to `wasted`. -/
def arena_delete (a : Arena) (cref : CRef) : Arena :=
  if cref = INVALID_CLAUSE then a
  else
    match arenaGet a cref with
    | none => a
    | some r =>
      if r.deleted then a
      else
        { arenaSet a cref (fun c => { c with deleted := true }) with
          wasted := a.wasted + (headerWords + r.lits.length) }

/-- The relocation map `arena_gc` builds while compacting: walking the
clauses with a source offset and a destination offset, a live clause's
old offset maps to its new offset and a deleted clause's offset maps to
`INVALID_CLAUSE`.  Any query that is not the offset of a stored clause
reads an entry the `calloc`ed map never wrote, i.e. 0. -/
def relocAux : List ClauseRec → Nat → Nat → CRef → CRef
  | [], _, _, _ => 0
  | c :: rest, src, dest, query =>
    if src = query then (if c.deleted then INVALID_CLAUSE else dest)
    else
      relocAux rest (src + clauseWords c)
        (dest + if c.deleted then 0 else clauseWords c) query

/-- `void arena_gc(Arena*, CRef** watches, uint32_t num_watches,
CRef* clauses, uint32_t* num_clauses)`, translated line by line:

* no-op unless `wasted * 4 ≥ size` (wasted ≥ 25% of used);
* compact the live clauses in order and build the relocation map;
* the watch-update loop iterates over `watch_size = 0` entries per list
  (the local is literally `uint32_t watch_size = 0;` in the source), so
  the watch arrays are returned unchanged;
* rewrite the `clauses` array through the map, dropping entries that
  relocate to `INVALID_CLAUSE`;
* set `wasted = 0`.

Returns the new arena, the watch arrays and the clause array. -/
def arena_gc (a : Arena) (watches : List (List CRef)) (clauses : List CRef) :
    Arena × List (List CRef) × List CRef :=
  if a.wasted * 4 < arenaSize a then (a, watches, clauses)
  else
    let reloc := relocAux a.items 1 1
    let items' := a.items.filter (fun c => !c.deleted)
    let clauses' := (clauses.map reloc).filter (fun c => c ≠ INVALID_CLAUSE)
    ({ items := items', capacity := a.capacity, wasted := 0 }, watches, clauses')

/-! ## watch.h: watches -/

/-- `struct Watch { CRef cref; Lit blocker; }`. -/
structure Watch where
  cref : CRef
  blocker : Lit
deriving DecidableEq, Repr

/-- `static inline bool is_binary_watch(Watch w)`. -/
def is_binary_watch (w : Watch) : Bool := w.cref == INVALID_CLAUSE

/-! ## solver.h: solver state -/

/-- `struct VarInfo` (the unused `last_polarity` field is omitted). -/
structure VarInfo where
  value : Lbool
  level : Nat
  reason : CRef
  trail_pos : Nat
  polarity : Bool
  activity : ℚ
  heap_pos : Nat
deriving DecidableEq, Repr

/-- `struct Trail { Lit lit; Level level; }` — one trail entry. -/
structure TrailE where
  lit : Lit
  level : Nat
deriving DecidableEq, Repr

instance : Inhabited TrailE := ⟨⟨0, 0⟩⟩

/-- The anonymous `order` struct: the VSIDS heap and its increments.
`size` is the length of `heap`. -/
structure OrderSt where
  heap : List Var
  var_inc : ℚ
  var_decay : ℚ
deriving DecidableEq, Repr

/-- The anonymous `restart` struct. -/
structure RestartSt where
  conflicts_since : Nat
  threshold : Nat
  slow_ma : ℚ
  fast_ma : ℚ
  stuck_conflicts : Nat
deriving DecidableEq, Repr

/-- The counters of the anonymous `stats` struct that the modelled code
touches (the `double start_time` wall-clock field is outside the model). -/
structure Stats where
  decisions : Nat
  propagations : Nat
  conflicts : Nat
  restarts : Nat
  reduces : Nat
  learned_clauses : Nat
  learned_literals : Nat
  deleted_clauses : Nat
  subsumed_clauses : Nat
  minimized_literals : Nat
  max_lbd : Nat
  glue_clauses : Nat
deriving DecidableEq, Repr

/-- The statistics counters of `struct WatchManager`. -/
structure WatchStats where
  updates : Nat
  visits : Nat
  skipped : Nat
deriving DecidableEq, Repr

/-- The fields of `struct SolverOpts` read by the modelled functions. -/
structure Opts where
  phase_saving : Bool
  random_phase : Bool
  random_phase_prob : ℚ
  glucose_restart : Bool
  restart_postpone : Nat
  glucose_min_conflicts : Nat
  restart_inc : ℚ
  glue_lbd : Nat
  reduce_interval : Nat
deriving DecidableEq, Repr

/-- `struct Solver`.  Flat C arrays indexed by variable, literal or
position become functions or lists; `trail_size = trail.length` and
`num_learnts = learnts.length`.  `clauses` stays a function from index
to `CRef` because `solver_add_clause` advances `num_clauses` without
writing an entry for binary clauses, leaving uninitialised holes that
`solver_reduce_db` nevertheless reads. -/
structure Solver where
  num_vars : Nat
  num_clauses : Nat
  num_original : Nat
  arena : Arena
  watches : Lit → List Watch
  vars : Var → VarInfo
  trail : List TrailE
  qhead : Nat
  trail_lims : Nat → Nat
  decision_level : Nat
  clauses : Nat → CRef
  learnts : List CRef
  order : OrderSt
  seen : Var → Nat
  restart : RestartSt
  stats : Stats
  wstats : WatchStats
  opts : Opts
  result : Lbool

/-- Pointwise update of one variable's record. -/
def updVar (f : Var → VarInfo) (v : Var) (g : VarInfo → VarInfo) : Var → VarInfo :=
  fun w => if w = v then g (f w) else f w

/-- Pointwise update of one literal's watch list. -/
def updWatch (f : Lit → List Watch) (l : Lit) (x : List Watch) : Lit → List Watch :=
  fun m => if m = l then x else f m

/-- Pointwise update of one entry of `trail_lims`. -/
def updLims (f : Nat → Nat) (i : Nat) (x : Nat) : Nat → Nat :=
  fun j => if j = i then x else f j

/-- Pointwise update of one entry of `seen`. -/
def updSeen (f : Var → Nat) (v : Var) (x : Nat) : Var → Nat :=
  fun w => if w = v then x else f w

/-- `1e100`, the activity rescale threshold. -/
def RESCALE_LIMIT : ℚ := 10 ^ 100

/-- `1e-100`, the activity rescale factor. -/
def RESCALE_FACTOR : ℚ := 1 / 10 ^ 100

/-! ## solver.c: VSIDS heap operations -/

/-- Write `v` at heap slot `i` and record the position, the common
epilogue of both percolate loops. -/
def heapPlace (s : Solver) (v : Var) (i : Nat) : Solver :=
  { s with
    order := { s.order with heap := s.order.heap.set i v }
    vars := updVar s.vars v (fun r => { r with heap_pos := i }) }

/-- The loop of `static void heap_percolate_up(Solver*, uint32_t i)`:
`v` (with activity `act`) has been conceptually removed from slot `i`;
while the parent has smaller activity, pull the parent down, then drop
`v` in the final slot.  The index strictly decreases each iteration, so
fuel `i + 1` always suffices; the fuel-0 case is unreachable from
`heap_percolate_up`. -/
def percUpGo (v : Var) (act : ℚ) : Nat → Solver → Nat → Solver
  | 0, s, i => heapPlace s v i
  | fuel + 1, s, i =>
    if i = 0 then heapPlace s v i
    else if (s.vars (s.order.heap.getD ((i - 1) / 2) 0)).activity ≥ act then heapPlace s v i
    else percUpGo v act fuel (heapPlace s (s.order.heap.getD ((i - 1) / 2) 0) i) ((i - 1) / 2)

/-- `static void heap_percolate_up(Solver* s, uint32_t i)`. -/
def heap_percolate_up (s : Solver) (i : Nat) : Solver :=
  percUpGo (s.order.heap.getD i 0) ((s.vars (s.order.heap.getD i 0)).activity) (i + 1) s i

/-- The loop of `static void heap_percolate_down(Solver*, uint32_t i)`.
Each iteration moves to a strictly larger index bounded by the (fixed)
heap length, so fuel `heap.length + 1` always suffices; the fuel-0 case
is unreachable from `heap_percolate_down`. -/
def percDownGo (v : Var) (act : ℚ) : Nat → Solver → Nat → Solver
  | 0, s, i => heapPlace s v i
  | fuel + 1, s, i =>
    if 2 * i + 1 < s.order.heap.length then
      let child :=
        if 2 * i + 2 < s.order.heap.length ∧
            (s.vars (s.order.heap.getD (2 * i + 2) 0)).activity >
            (s.vars (s.order.heap.getD (2 * i + 1) 0)).activity
        then 2 * i + 2 else 2 * i + 1
      if act ≥ (s.vars (s.order.heap.getD child 0)).activity then heapPlace s v i
      else percDownGo v act fuel (heapPlace s (s.order.heap.getD child 0) i) child
    else heapPlace s v i

/-- `static void heap_percolate_down(Solver* s, uint32_t i)`. -/
def heap_percolate_down (s : Solver) (i : Nat) : Solver :=
  percDownGo (s.order.heap.getD i 0) ((s.vars (s.order.heap.getD i 0)).activity)
    (s.order.heap.length + 1) s i

/-- `static void heap_insert(Solver* s, Var v)`: append `v` at position
`i = size++`, record the position, and percolate up from `i`. -/
def heap_insert (s : Solver) (v : Var) : Solver :=
  if (s.vars v).heap_pos ≠ UINT32_MAX then s
  else
    heap_percolate_up
      { s with
        order := { s.order with heap := s.order.heap ++ [v] }
        vars := updVar s.vars v (fun r => { r with heap_pos := s.order.heap.length }) }
      s.order.heap.length

/-- `static void heap_remove(Solver* s, Var v)`. -/
def heap_remove (s : Solver) (v : Var) : Solver :=
  let pos := (s.vars v).heap_pos
  if pos = UINT32_MAX then s
  else
    let s1 := { s with vars := updVar s.vars v (fun r => { r with heap_pos := UINT32_MAX }) }
    if pos = s1.order.heap.length - 1 then
      { s1 with order := { s1.order with heap := s1.order.heap.take (s1.order.heap.length - 1) } }
    else
      let lastv := s1.order.heap.getD (s1.order.heap.length - 1) 0
      let s2 :=
        { s1 with
          order := { s1.order with
            heap := (s1.order.heap.take (s1.order.heap.length - 1)).set pos lastv }
          vars := updVar s1.vars lastv (fun r => { r with heap_pos := pos }) }
      let lastAct : ℚ := (s2.vars lastv).activity
      let parentAct : ℚ := (s2.vars (s2.order.heap.getD ((pos - 1) / 2) 0)).activity
      if 0 < pos then
        if parentAct < lastAct then heap_percolate_up s2 pos
        else heap_percolate_down s2 pos
      else heap_percolate_down s2 pos

/-- `static Var heap_extract_max(Solver* s)`. -/
def heap_extract_max (s : Solver) : Var × Solver :=
  if s.order.heap.length = 0 then (INVALID_VAR, s)
  else
    let v := s.order.heap.getD 0 0
    (v, heap_remove s v)

/-- The rescale pass of `bump_var_activity`: multiply every variable's
activity (indices `1..num_vars`) and `var_inc` by `1e-100`. -/
def rescaleAll (s : Solver) : Solver :=
  { s with
    vars := fun w =>
      if 1 ≤ w ∧ w ≤ s.num_vars then
        { s.vars w with activity := (s.vars w).activity * RESCALE_FACTOR }
      else s.vars w
    order := { s.order with var_inc := s.order.var_inc * RESCALE_FACTOR } }

/-- `static void bump_var_activity(Solver* s, Var v, double inc)`. -/
def bump_var_activity (s : Solver) (v : Var) (inc : ℚ) : Solver :=
  let s1 := { s with vars := updVar s.vars v (fun r => { r with activity := r.activity + inc }) }
  let s2 :=
    if (s1.vars v).heap_pos ≠ UINT32_MAX then heap_percolate_up s1 ((s1.vars v).heap_pos)
    else s1
  if (s2.vars v).activity > RESCALE_LIMIT then rescaleAll s2 else s2

/-- `static void decay_var_inc(Solver* s)`. -/
def decay_var_inc (s : Solver) : Solver :=
  { s with order := { s.order with var_inc := s.order.var_inc / s.order.var_decay } }

/-! ## solver.c: trail management and clause addition -/

/-- `static inline void push_trail(Solver* s, Lit lit)`. -/
def push_trail (s : Solver) (lit : Lit) : Solver :=
  let v := litVar lit
  { s with
    vars := updVar s.vars v (fun r =>
      { r with
        value := if litSign lit then Lbool.FALSE else Lbool.TRUE
        level := s.decision_level
        trail_pos := s.trail.length
        polarity := if s.opts.phase_saving then !litSign lit else r.polarity })
    trail := s.trail ++ [⟨lit, s.decision_level⟩] }

/-- The per-variable resets in the undo loop of `solver_backtrack`:
`value = UNDEF`, `level = INVALID_LEVEL`, `reason = INVALID_CLAUSE`. -/
def undoAssign (s : Solver) (v : Var) : Solver :=
  { s with
    vars := updVar s.vars v (fun r =>
      { r with value := Lbool.UNDEF, level := INVALID_LEVEL, reason := INVALID_CLAUSE }) }

/-- The body of the undo loop in `solver_backtrack`: reset one trail
entry's variable and re-insert it into the heap if absent. -/
def undoOne (s : Solver) (e : TrailE) : Solver :=
  if ((undoAssign s (litVar e.lit)).vars (litVar e.lit)).heap_pos = UINT32_MAX then
    heap_insert (undoAssign s (litVar e.lit)) (litVar e.lit)
  else undoAssign s (litVar e.lit)

/-- `void solver_backtrack(Solver* s, Level level)`: nothing happens at
or above the current level; otherwise undo every trail entry from the
target position (`trail_lims level`, or 0 for level 0) upward, shrink
the trail, and rewind `qhead` and `decision_level`.  (The undo loop
never touches the trail itself, so truncating `s.trail` is the C
`trail_size = trail_pos`.) -/
def solver_backtrack (s : Solver) (level : Nat) : Solver :=
  if level ≥ s.decision_level then s
  else
    { (s.trail.drop (if level = 0 then 0 else s.trail_lims level)).foldl undoOne s with
      trail := s.trail.take (if level = 0 then 0 else s.trail_lims level)
      qhead := if level = 0 then 0 else s.trail_lims level
      decision_level := level }

/-- `void watch_add(WatchManager*, Lit lit, CRef cref, Lit blocker)`
(from `watch.c`): append one watch to `lit`'s list. -/
def watch_add (s : Solver) (l : Lit) (cref : CRef) (blocker : Lit) : Solver :=
  { s with
    watches := updWatch s.watches l (s.watches l ++ [⟨cref, blocker⟩])
    wstats := { s.wstats with updates := s.wstats.updates + 1 } }

/-- Swap two positions of a literal list (the C code swaps through a
temporary). -/
def listSwap (xs : List Lit) (i j : Nat) : List Lit :=
  let a := xs.getD i 0
  let b := xs.getD j 0
  (xs.set i b).set j a

/-- The predicate "this literal is not currently false", used by
`solver_add_clause` when choosing watches. -/
def notFalseIn (s : Solver) (l : Lit) : Bool :=
  !(litValFalse ((s.vars (litVar l)).value) l)

/-- `bool solver_add_clause(Solver* s, const Lit* lits, uint32_t size)`.
Returns the new state and the C `bool` result.  Empty clauses and
falsified unit clauses set `result = FALSE` (UNSAT) and return `false`;
unit clauses are pushed on the trail and not stored; binary clauses get
two `INVALID_CLAUSE` watches (and may immediately propagate or report
UNSAT); larger clauses are stored in the arena, reordered so positions
0 and 1 hold non-false literals when possible, and watched there. -/
def solver_add_clause (s : Solver) (lits : List Lit) : Solver × Bool :=
  if lits.length = 0 then ({ s with result := Lbool.FALSE }, false)
  else if lits.length = 1 then
    let l := lits.getD 0 0
    let v := litVar l
    if (s.vars v).value = Lbool.UNDEF then (push_trail s l, true)
    else if litValFalse ((s.vars v).value) l then ({ s with result := Lbool.FALSE }, false)
    else (s, true)
  else
    let allocRes : Option (CRef × Solver) :=
      if lits.length > 2 then
        let ar := arena_alloc s.arena lits false
        if ar.1 = INVALID_CLAUSE then none
        else
          let s1 := { s with arena := ar.2 }
          let s2 :=
            if s1.num_clauses ≥ s1.num_original then
              { s1 with num_original := if s1.num_original = 0 then 1024 else s1.num_original * 2 }
            else s1
          some (ar.1, { s2 with clauses := fun i => if i = s2.num_clauses then ar.1 else s2.clauses i })
      else some (INVALID_CLAUSE, s)
    match allocRes with
    | none => (s, false)
    | some (cref, s3) =>
      let s4 := { s3 with num_clauses := s3.num_clauses + 1 }
      if lits.length = 2 then
        let l0 := lits.getD 0 0
        let l1 := lits.getD 1 0
        let val0 := (s4.vars (litVar l0)).value
        let val1 := (s4.vars (litVar l1)).value
        if litValFalse val0 l0 && litValFalse val1 l1 then
          ({ s4 with result := Lbool.FALSE }, false)
        else
          let s5 :=
            if litValFalse val0 l0 && (val1 == Lbool.UNDEF) then push_trail s4 l1
            else if litValFalse val1 l1 && (val0 == Lbool.UNDEF) then push_trail s4 l0
            else s4
          (watch_add (watch_add s5 l0 INVALID_CLAUSE l1) l1 INVALID_CLAUSE l0, true)
      else
        let cl := clauseLitsAt s4.arena cref
        let cl1 :=
          match cl.findIdx? (notFalseIn s4) with
          | some i => listSwap cl 0 i
          | none => cl
        let cl2 :=
          match (cl1.drop 1).findIdx? (notFalseIn s4) with
          | some k => listSwap cl1 1 (k + 1)
          | none => cl1
        let s5 := { s4 with arena := arenaSet s4.arena cref (fun r => { r with lits := cl2 }) }
        let w0 := cl2.getD 0 0
        let w1 := cl2.getD 1 0
        (watch_add (watch_add s5 w0 cref w1) w1 cref w0, true)

/-- `lbool solver_model_value(const Solver* s, Var v)`. -/
def solver_model_value (s : Solver) (v : Var) : Lbool :=
  if v > s.num_vars then Lbool.UNDEF else (s.vars v).value

/-- `lbool solver_solve_with_assumptions(Solver*, const Lit*, uint32_t)`.
The function first returns the cached `result` when it is not `UNDEF`
(line 1748 of `solver.c`); everything after that early return (BCE,
assumption pushing, the CDCL loop, lines 1752-2034) is abstracted as
the continuation `rest`, which the theorems quantify over. -/
def solver_solve_with_assumptions (rest : Solver → List Lit → Lbool × Solver)
    (s : Solver) (assumps : List Lit) : Lbool × Solver :=
  if s.result ≠ Lbool.UNDEF then (s.result, s) else rest s assumps

/-- `lbool solver_solve(Solver* s)`: solve with no assumptions. -/
def solver_solve (rest : Solver → List Lit → Lbool × Solver) (s : Solver) : Lbool × Solver :=
  solver_solve_with_assumptions rest s []

/-! ## Heap lemmas

Facts about the VSIDS heap operations needed below: the percolation
loops permute heap entries (membership is preserved), they change
nothing besides the heap array and the `heap_pos` table, and they keep
the position table consistent with heap membership. -/

/-- Strip the heap array and the `heap_pos` table from a state; the
heap operations leave this erasure unchanged. -/
def eraseHeap (s : Solver) : Solver :=
  { s with
    order := { s.order with heap := [] }
    vars := fun u => { s.vars u with heap_pos := 0 } }

/-- The position table is consistent with heap membership: any variable
whose `heap_pos` is not the `UINT32_MAX` sentinel is present in the
heap array.  This is the direction of the heap invariant that
`solver_backtrack`'s re-insertion relies on. -/
def HeapWF (s : Solver) : Prop :=
  ∀ u, (s.vars u).heap_pos ≠ UINT32_MAX → u ∈ s.order.heap

/-- The frame of the backtrack undo loop: every state component except
the trail bookkeeping, the per-variable `value`/`level`/`reason` and
the heap data is untouched; in particular saved polarities, activities
and trail positions survive. -/
def UndoFrame (s s' : Solver) : Prop :=
  s'.trail = s.trail ∧ s'.qhead = s.qhead ∧ s'.decision_level = s.decision_level ∧
  s'.arena = s.arena ∧ s'.learnts = s.learnts ∧ s'.restart = s.restart ∧
  s'.watches = s.watches ∧ s'.opts = s.opts ∧ s'.result = s.result ∧
  s'.num_vars = s.num_vars ∧ s'.num_clauses = s.num_clauses ∧ s'.trail_lims = s.trail_lims ∧
  s'.stats = s.stats ∧ s'.seen = s.seen ∧
  ∀ u, (s'.vars u).polarity = (s.vars u).polarity ∧ (s'.vars u).activity = (s.vars u).activity ∧
       (s'.vars u).trail_pos = (s.vars u).trail_pos

/-- A variable that has been undone by the backtrack loop: value
`UNDEF`, level and reason cleared, present in the order heap. -/
def Undone (s : Solver) (v : Var) : Prop :=
  (s.vars v).value = Lbool.UNDEF ∧ (s.vars v).level = INVALID_LEVEL ∧
  (s.vars v).reason = INVALID_CLAUSE ∧ v ∈ s.order.heap

/-! ## Concrete states for witnesses -/

/-- A freshly initialised variable record (`solver_new_var`). -/
def baseVarInfo : VarInfo :=
  { value := Lbool.UNDEF, level := INVALID_LEVEL, reason := INVALID_CLAUSE,
    trail_pos := 0, polarity := false, activity := 0, heap_pos := UINT32_MAX }

/-- The option values of `default_opts()` that the model carries. -/
def baseOpts : Opts :=
  { phase_saving := true, random_phase := false, random_phase_prob := 1 / 100,
    glucose_restart := true, restart_postpone := 10, glucose_min_conflicts := 100,
    restart_inc := 3 / 2, glue_lbd := 2, reduce_interval := 2000 }

/-- All-zero statistics. -/
def baseStats : Stats := ⟨0, 0, 0, 0, 0, 0, 0, 0, 0, 0, 0, 0⟩

/-- A freshly created solver (`solver_new` with default options). -/
def baseSolver : Solver :=
  { num_vars := 0, num_clauses := 0, num_original := 0,
    arena := { items := [], capacity := 4194304, wasted := 0 },
    watches := fun _ => [], vars := fun _ => baseVarInfo,
    trail := [], qhead := 0, trail_lims := fun _ => 0, decision_level := 0,
    clauses := fun _ => INVALID_CLAUSE, learnts := [],
    order := { heap := [], var_inc := 1, var_decay := 19 / 20 },
    seen := fun _ => 0,
    restart := { conflicts_since := 0, threshold := 100, slow_ma := 0, fast_ma := 0,
                 stuck_conflicts := 0 },
    stats := baseStats, wstats := ⟨0, 0, 0⟩, opts := baseOpts, result := Lbool.UNDEF }

/-- A solver with one variable decided `TRUE` at level 1, used to
witness the backtrack theorem. -/
def btState : Solver :=
  { baseSolver with
    num_vars := 1
    vars := fun u =>
      if u = 1 then { baseVarInfo with value := Lbool.TRUE, level := 1, trail_pos := 0 }
      else baseVarInfo
    trail := [⟨2, 1⟩]
    qhead := 1
    decision_level := 1 }

/-! ## C9: LBD of an inserted learnt clause -/

/-- The loop of `static uint32_t calc_lbd(Solver*, const Lit*, uint32_t)`:
walk the literals accumulating the distinct non-zero decision levels
seen so far (the C `levels[256]` scratch array, capped at 256 entries);
the final LBD is the number of accumulated levels. -/
def calcLbdAux (s : Solver) : List Lit → List Nat → List Nat
  | [], acc => acc
  | l :: rest, acc =>
    if (s.vars (litVar l)).level = 0 then calcLbdAux s rest acc
    else if (s.vars (litVar l)).level ∈ acc then calcLbdAux s rest acc
    else if acc.length < 256 then calcLbdAux s rest (acc ++ [(s.vars (litVar l)).level])
    else calcLbdAux s rest acc

/-- `static uint32_t calc_lbd(Solver* s, const Lit* lits, uint32_t size)`. -/
def calc_lbd (s : Solver) (lits : List Lit) : Nat :=
  (calcLbdAux s lits []).length

/-- The LBD-recording step of the learnt-clause insertion in
`solver_solve_with_assumptions` (solver.c lines 1921-1926):
`learnt_ref = arena_alloc(s->arena, learnt_clause, learnt_size, true);
if (learnt_ref != INVALID_CLAUSE) { lbd = calc_lbd(...);
set_clause_lbd(s->arena, learnt_ref, lbd); }`. -/
def learnClauseInsert (s : Solver) (lits : List Lit) : Solver × CRef :=
  if (arena_alloc s.arena lits true).1 ≠ INVALID_CLAUSE then
    ({ s with
        arena := set_clause_lbd (arena_alloc s.arena lits true).2 (arena_alloc s.arena lits true).1 (calc_lbd s lits) },
     (arena_alloc s.arena lits true).1)
  else (s, (arena_alloc s.arena lits true).1)

/-! ## C7: restart firing -/

/-- The geometric reset inside `solver_should_restart`:
`conflicts_since = 0; threshold = (uint32_t)(threshold * restart_inc);`
(the `double` product truncated to an integer is the floor). -/
def resetGeom (s : Solver) : Solver :=
  { s with
    restart := { s.restart with
      conflicts_since := 0
      threshold := Nat.floor ((s.restart.threshold : ℚ) * s.opts.restart_inc) } }

/-- The tail of the glucose branch of `solver_should_restart`: run the
geometric check (resetting the counter and raising the threshold when
it fires) and return the disjunction with the already-computed glucose
flag. -/
def geomReturn (s : Solver) (glucose : Bool) : Bool × Solver :=
  if s.restart.conflicts_since ≥ s.restart.threshold then (glucose || true, resetGeom s)
  else (glucose || false, s)

/-- `bool solver_should_restart(Solver* s)`.  In glucose mode the
glucose condition is evaluated first; when it holds and postponing is
enabled and the trail is shorter than `restart_postpone`, the function
returns `false` early without running the geometric check.  Otherwise
the geometric check always runs and the result is the disjunction.  In
pure geometric mode only the geometric check runs.  The function
returns the C `bool` together with the (possibly reset) state. -/
def solver_should_restart (s : Solver) : Bool × Solver :=
  if s.opts.glucose_restart then
    if s.stats.conflicts > s.opts.glucose_min_conflicts then
      if s.restart.fast_ma > s.restart.slow_ma then
        if s.opts.restart_postpone > 0 then
          if s.trail.length < s.opts.restart_postpone then (false, s)
          else geomReturn s true
        else geomReturn s true
      else geomReturn s false
    else geomReturn s false
  else
    if s.restart.conflicts_since ≥ s.restart.threshold then (true, resetGeom s)
    else (false, s)

/-- The restart step of the solve loop (solver.c lines 1991-1995):
`if (solver_should_restart(s)) { solver_backtrack(s, n_assumps);
s->stats.restarts++; }`. -/
def restartStep (s : Solver) (n_assumps : Nat) : Solver :=
  if (solver_should_restart s).1 then
    { solver_backtrack (solver_should_restart s).2 n_assumps with
      stats := { (solver_backtrack (solver_should_restart s).2 n_assumps).stats with
        restarts := (solver_backtrack (solver_should_restart s).2 n_assumps).stats.restarts + 1 } }
  else (solver_should_restart s).2

/-- A state in which the Glucose condition fires a restart while the
geometric counter is far below its threshold. -/
def glucoseFireState : Solver :=
  { baseSolver with
    stats := { baseStats with conflicts := 101 }
    restart := { conflicts_since := 5, threshold := 100, slow_ma := 1, fast_ma := 2,
                 stuck_conflicts := 0 }
    trail := List.replicate 10 ⟨0, 0⟩ }

/-! ## C5: decision polarity -/

/-- The variable-selection loop of `solver_decide`: pop the heap
maximum until an unassigned variable appears; `INVALID_VAR` when the
heap empties.  Each extraction shrinks the heap, so fuel
`heap.length + 1` always suffices. -/
def decideLoop : Nat → Solver → Var × Solver
  | 0, s => (INVALID_VAR, s)
  | fuel + 1, s =>
    if s.order.heap.length > 0 then
      if ((heap_extract_max s).2.vars (heap_extract_max s).1).value = Lbool.UNDEF then
        heap_extract_max s
      else decideLoop fuel (heap_extract_max s).2
    else (INVALID_VAR, s)

/-- The polarity choice of `solver_decide` (the `bool sign` block).
The two `rand()` draws of the random-phase branch are supplied as the
oracle arguments `randReal` (the value of `rand()/RAND_MAX`) and
`randBit` (the parity of the second draw). -/
def decideSign (s : Solver) (next : Var) (randReal : ℚ) (randBit : Bool) : Bool :=
  if s.opts.phase_saving && (s.vars next).polarity then !(s.vars next).polarity
  else if s.opts.random_phase then
    (if randReal < s.opts.random_phase_prob then randBit else (s.vars next).polarity)
  else (s.vars next).polarity

/-- The decision push of `solver_decide`: bump the decision level,
record the level's trail start, assign the literal `mkLit(next, sign)`
with reason `INVALID_CLAUSE`, append it to the trail and count the
decision. -/
def pushDecision (s : Solver) (next : Var) (sgn : Bool) : Solver :=
  { s with
    decision_level := s.decision_level + 1
    trail_lims := updLims s.trail_lims (s.decision_level + 1) s.trail.length
    vars := updVar s.vars next (fun r =>
      { r with
        value := if sgn then Lbool.FALSE else Lbool.TRUE
        level := s.decision_level + 1
        reason := INVALID_CLAUSE
        trail_pos := s.trail.length })
    trail := s.trail ++ [⟨mkLit next sgn, s.decision_level + 1⟩]
    stats := { s.stats with decisions := s.stats.decisions + 1 } }

/-- `bool solver_decide(Solver* s)` with the two `rand()` draws passed
as oracle arguments. -/
def solver_decide (s : Solver) (randReal : ℚ) (randBit : Bool) : Bool × Solver :=
  if (decideLoop (s.order.heap.length + 1) s).1 = INVALID_VAR then
    (false, (decideLoop (s.order.heap.length + 1) s).2)
  else
    (true,
     pushDecision (decideLoop (s.order.heap.length + 1) s).2
       (decideLoop (s.order.heap.length + 1) s).1
       (decideSign (decideLoop (s.order.heap.length + 1) s).2
         (decideLoop (s.order.heap.length + 1) s).1 randReal randBit))

/-- One unassigned variable (1) in the heap whose saved polarity is
`false` (its last phase was FALSE), with phase saving enabled and
random phase disabled. -/
def decideState : Solver :=
  { baseSolver with
    num_vars := 1
    vars := fun u => if u = 1 then { baseVarInfo with heap_pos := 0 } else baseVarInfo
    order := { baseSolver.order with heap := [1] } }

/-- The same state with phase saving disabled. -/
def decideStateNoPS : Solver :=
  { decideState with opts := { baseOpts with phase_saving := false } }

/-! ## C1: clause database reduction -/

/-- `typedef struct { CRef cref; uint32_t lbd; float activity; } ClauseScore`. -/
structure ClauseScore where
  cref : CRef
  lbd : Nat
  activity : ℚ
deriving DecidableEq, Repr

/-- Score record for one clause, as collected by `solver_reduce_db`. -/
def clauseScore (s : Solver) (c : CRef) : ClauseScore :=
  ⟨c, clause_lbd s.arena c, clause_activity s.arena c⟩

/-- The order of `compare_clauses`: ascending LBD, then descending
activity. -/
def scoreLE (a b : ClauseScore) : Bool :=
  decide (a.lbd < b.lbd) || (a.lbd == b.lbd && decide (b.activity ≤ a.activity))

/-- Insertion into a sorted score list. -/
def insertScore (x : ClauseScore) : List ClauseScore → List ClauseScore
  | [] => [x]
  | y :: ys => if scoreLE x y then x :: y :: ys else y :: insertScore x ys

/-- Sorting by `compare_clauses` (the C code uses `qsort`; insertion
sort realises the same order). -/
def sortScores : List ClauseScore → List ClauseScore
  | [] => []
  | x :: xs => insertScore x (sortScores xs)

/-- The clause references `solver_reduce_db` examines: it iterates
`s->clauses[0..num_clauses)`, skipping `INVALID_CLAUSE` entries,
deleted clauses, and clauses without the `LEARNED` flag. -/
def reduceCandidates (s : Solver) : List CRef :=
  ((List.range s.num_clauses).map s.clauses).filter
    (fun c => c != INVALID_CLAUSE && !clause_deleted s.arena c && clause_learned s.arena c)

/-- The deletion loop of `solver_reduce_db` over the worse half of the
sorted scores: clauses with `lbd ≤ glue_lbd` are kept unconditionally,
the rest are deleted; returns the arena and the deletion count. -/
def deleteWorse (glue : Nat) : List ClauseScore → Arena → Arena × Nat
  | [], a => (a, 0)
  | x :: xs, a =>
    if x.lbd ≤ glue then deleteWorse glue xs a
    else
      match deleteWorse glue xs (arena_delete a x.cref) with
      | (a', d) => (a', d + 1)

/-- `void solver_reduce_db(Solver* s)`: count the learned clauses among
`s->clauses[0..num_clauses)`; if fewer than `num_clauses / 2 + 1000`,
only bump `stats.reduces`; otherwise sort the collected scores and
delete the worse half except glue clauses, adding the count to
`stats.deleted_clauses`. -/
def solver_reduce_db (s : Solver) : Solver :=
  if (reduceCandidates s).length < s.num_clauses / 2 + 1000 then
    { s with stats := { s.stats with reduces := s.stats.reduces + 1 } }
  else
    match deleteWorse s.opts.glue_lbd
      ((sortScores ((reduceCandidates s).map (clauseScore s))).drop
        ((reduceCandidates s).length / 2)) s.arena with
    | (a', d) =>
      { s with
        arena := a'
        stats := { s.stats with
          reduces := s.stats.reduces + 1
          deleted_clauses := s.stats.deleted_clauses + d } }

/-- Formalisation of the spec's trigger quantity: the number of live
(non-deleted) learned clauses the solver tracks, i.e. the entries of
`s->learnts` whose arena record is alive and flagged `LEARNED`. -/
def liveLearnedCount (s : Solver) : Nat :=
  (s.learnts.filter (fun c => !clause_deleted s.arena c && clause_learned s.arena c)).length

/-- One live learned clause of three literals (LBD 5, above the glue
threshold). -/
def learnedRec : ClauseRec := ⟨[2, 4, 6], true, false, 5, 0⟩

/-- A solver with no original clauses and 1001 live learned clauses in
`learnts` (each occupying 6 arena words, so clause `k` sits at offset
`1 + 6k`). -/
def badReduceState : Solver :=
  { baseSolver with
    arena := { items := List.replicate 1001 learnedRec, capacity := 4194304, wasted := 0 }
    learnts := (List.range 1001).map (fun k => 1 + 6 * k) }

/-! ## C2: arena garbage collection -/

/-- An arena holding one deleted clause (1 literal, 4 words, at offset
1) followed by one live clause (3 literals, 6 words, at offset 5):
`wasted = 4`, `size = 11`, so `wasted * 4 = 16 ≥ 11` triggers GC. -/
def gcArena : Arena :=
  { items := [⟨[2], false, true, 0, 0⟩, ⟨[4, 6, 8], false, false, 0, 0⟩],
    capacity := 4194304, wasted := 4 }

/-! ## C3: unit propagation (two-watched literals)

`solver_propagate` walks the watch list of `¬p` for each newly true
trail literal `p`, compacting the list in place.  The embedding
processes a snapshot of the list (`rest`), accumulating the kept
watches (`kept`, in reverse), and the outer loop carries fuel: each
iteration consumes one trail position and the trail only grows, so any
fuel bound larger than the number of consumed positions suffices. -/

/-- The propagation assignment blocks of `solver_propagate` (both the
binary and the clause case): set the variable's value/level/reason and
trail position, append to the trail, and save the phase when enabled.
`reason` is `INVALID_CLAUSE` for binary propagations and the clause's
`CRef` otherwise. -/
def propAssign (s : Solver) (q : Lit) (reason : CRef) : Solver :=
  { s with
    vars := updVar s.vars (litVar q) (fun r =>
      { r with
        value := if litSign q then Lbool.FALSE else Lbool.TRUE
        level := s.decision_level
        reason := reason
        trail_pos := s.trail.length
        polarity := if s.opts.phase_saving then !litSign q else r.polarity })
    trail := s.trail ++ [⟨q, s.decision_level⟩] }

/-- `s->watches->skipped++` (blocker hit). -/
def bumpSkipped (s : Solver) : Solver :=
  { s with wstats := { s.wstats with skipped := s.wstats.skipped + 1 } }

/-- `s->stats.propagations++; s->watches->visits++` at the top of each
outer iteration. -/
def bumpPropStats (s : Solver) : Solver :=
  { s with
    stats := { s.stats with propagations := s.stats.propagations + 1 }
    wstats := { s.wstats with visits := s.wstats.visits + 1 } }

/-- The conditional swap `if (lits[0] == neg(p)) { lits[0] = lits[1];
lits[1] = neg(p); }` making position 1 the falsified watched literal. -/
def swapState (s : Solver) (c : CRef) (np : Lit) : Solver :=
  if (clauseLitsAt s.arena c).getD 0 0 = np then
    { s with arena := arenaSet s.arena c (fun r =>
        { r with lits := (r.lits.set 0 (r.lits.getD 1 0)).set 1 np }) }
  else s

/-- `lits[0]` of the stored clause. -/
def firstLit (s : Solver) (c : CRef) : Lit :=
  (clauseLitsAt s.arena c).getD 0 0

/-- The watch-replacement scan `for (k = 2; k < size; k++)` looking for
a non-false literal; called on `lits.drop 2` with starting index 2. -/
def scanNewWatch (s : Solver) : List Lit → Nat → Option Nat
  | [], _ => none
  | l :: rest, k => if notFalseIn s l then some k else scanNewWatch s rest (k + 1)

/-- Found a non-false literal at position `k`: swap it into position 1
(`lits[1] = lit; lits[k] = neg(p)`) and add a watch for it
(`watch_add(s->watches, lit, cref, first)`). -/
def moveWatch (s : Solver) (c : CRef) (k : Nat) (np : Lit) (first : Lit) : Solver :=
  watch_add
    { s with arena := arenaSet s.arena c (fun r =>
        { r with lits := (r.lits.set 1 (r.lits.getD k 0)).set k np }) }
    ((clauseLitsAt s.arena c).getD k 0) c first

/-- The inner loop of `solver_propagate` over the watch list of
`¬p` (`rest` = unprocessed suffix, `kept` = compacted prefix in
reverse).  Returns `some conflict` or `none`, with the resulting
state; the processed list is written back to `watches[¬p]` on every
exit, mirroring the in-place compaction and the put-back loops of the
C code. -/
def processWatches (p : Lit) : Solver → List Watch → List Watch → Option CRef × Solver
  | s, [], kept =>
    (none, { s with watches := updWatch s.watches (litNeg p) kept.reverse })
  | s, w :: rest, kept =>
    if is_binary_watch w then
      if (s.vars (litVar w.blocker)).value = Lbool.UNDEF then
        processWatches p (propAssign s w.blocker INVALID_CLAUSE) rest (w :: kept)
      else if litValFalse ((s.vars (litVar w.blocker)).value) w.blocker then
        (some BINARY_CONFLICT,
         { s with watches := updWatch s.watches (litNeg p) (kept.reverse ++ w :: rest) })
      else processWatches p s rest (w :: kept)
    else if litValTrue ((s.vars (litVar w.blocker)).value) w.blocker then
      processWatches p (bumpSkipped s) rest (w :: kept)
    else if litValTrue
        (((swapState s w.cref (litNeg p)).vars
          (litVar (firstLit (swapState s w.cref (litNeg p)) w.cref))).value)
        (firstLit (swapState s w.cref (litNeg p)) w.cref) then
      processWatches p (swapState s w.cref (litNeg p)) rest
        (⟨w.cref, firstLit (swapState s w.cref (litNeg p)) w.cref⟩ :: kept)
    else
      match scanNewWatch (swapState s w.cref (litNeg p))
          ((clauseLitsAt (swapState s w.cref (litNeg p)).arena w.cref).drop 2) 2 with
      | some k =>
        processWatches p
          (moveWatch (swapState s w.cref (litNeg p)) w.cref k (litNeg p)
            (firstLit (swapState s w.cref (litNeg p)) w.cref))
          rest kept
      | none =>
        if ((swapState s w.cref (litNeg p)).vars
            (litVar (firstLit (swapState s w.cref (litNeg p)) w.cref))).value = Lbool.UNDEF then
          processWatches p
            (propAssign (swapState s w.cref (litNeg p))
              (firstLit (swapState s w.cref (litNeg p)) w.cref) w.cref)
            rest (w :: kept)
        else
          (some w.cref,
           { swapState s w.cref (litNeg p) with
             watches := updWatch (swapState s w.cref (litNeg p)).watches (litNeg p)
               ((w :: kept).reverse ++ rest) })

/-- The outer loop `while (s->qhead < s->trail_size)` of
`solver_propagate`, with fuel.  Each iteration consumes the literal at
`qhead`, bumps the statistics, and walks the watch list of its
negation. -/
def propagateLoop : Nat → Solver → Option (CRef × Solver)
  | 0, _ => none
  | fuel + 1, s =>
    if s.qhead < s.trail.length then
      match processWatches ((s.trail.getD s.qhead default).lit)
          (bumpPropStats { s with qhead := s.qhead + 1 })
          (s.watches (litNeg ((s.trail.getD s.qhead default).lit))) [] with
      | (some c, s') => some (c, s')
      | (none, s') => propagateLoop fuel s'
    else some (INVALID_CLAUSE, s)

/-- `CRef solver_propagate(Solver* s)` (fuelled; `none` means the fuel
ran out before the loop finished). -/
def solver_propagate (fuel : Nat) (s : Solver) : Option (CRef × Solver) :=
  propagateLoop fuel s

/-! ### C3 support: invariants -/

/-- All trail literals are true in the current assignment. -/
def TrailTrue (s : Solver) : Prop :=
  ∀ e ∈ s.trail, litValTrue ((s.vars (litVar e.lit)).value) e.lit = true

/-- A non-binary watch is well formed for list `l`: its `CRef` is a
stored clause of at least two distinct literals, one of whose first two
literals is `l`. -/
def WatchedAt (a : Arena) (l : Lit) (w : Watch) : Prop :=
  ∃ cl, arenaGet a w.cref = some cl ∧ 2 ≤ cl.lits.length ∧
    cl.lits.Nodup ∧ w.cref < BINARY_CONFLICT ∧
    (cl.lits.getD 0 0 = l ∨ cl.lits.getD 1 0 = l)

/-- The clause references of the non-binary watches of a list. -/
def nbCrefs (ws : List Watch) : List CRef :=
  (ws.filter (fun w => !is_binary_watch w)).map Watch.cref

/-- Global propagation invariant: trail literals true, every non-binary
watch well formed, and no clause watched twice on the same list. -/
def PropInv (s : Solver) : Prop :=
  TrailTrue s ∧
  (∀ l, ∀ w ∈ s.watches l, is_binary_watch w = false → WatchedAt s.arena l w) ∧
  (∀ l, (nbCrefs (s.watches l)).Nodup)

/-- Mid-walk invariant: the same, away from the list being compacted
(whose content lives in the walk's `rest`/`kept` arguments). -/
def MidWF (s : Solver) (np : Lit) : Prop :=
  TrailTrue s ∧
  (∀ l, l ≠ np → ∀ w ∈ s.watches l, is_binary_watch w = false → WatchedAt s.arena l w) ∧
  (∀ l, l ≠ np → (nbCrefs (s.watches l)).Nodup)

/-- What a conflicting return value means: `BINARY_CONFLICT` names a
falsified binary watch pair present in a watch list, and any other
value is the `CRef` of a stored clause all of whose literals are
false. -/
def ConflictRet (r : CRef) (s : Solver) : Prop :=
  (r = BINARY_CONFLICT ∧ ∃ l q, (⟨INVALID_CLAUSE, q⟩ : Watch) ∈ s.watches l ∧
      litValFalse ((s.vars (litVar l)).value) l = true ∧
      litValFalse ((s.vars (litVar q)).value) q = true) ∨
  (r < BINARY_CONFLICT ∧ ∃ cl, arenaGet s.arena r = some cl ∧
      ∀ l ∈ cl.lits, litValFalse ((s.vars (litVar l)).value) l = true)

/-! ## C4: conflict analysis (`solver_analyze`, solver.c 826-926)

The analysis state carries the solver, the current-level path count
`pathC`, the tail of the learnt clause (`learnt[1..]`, in append
order), and the running backtrack level.  `learnt[0]` (the asserting
literal) is prepended at the end, as the C code does. -/

/-- The mutable locals of `solver_analyze` except `index` and `p`. -/
structure AnSt where
  s : Solver
  pathC : Nat
  learnt : List Lit
  bt : Nat

/-- One literal visit (the shared body of the conflict-clause scan and
the reason-clause scan): skip seen or level-0 variables; otherwise mark
seen, bump activity, and either count a current-level path or append
the literal to the learnt tail, raising `bt_level`. -/
def analyzeLit (st : AnSt) (q : Lit) : AnSt :=
  if st.s.seen (litVar q) = 0 then
    if 0 < (st.s.vars (litVar q)).level then
      if (st.s.vars (litVar q)).level ≥ st.s.decision_level then
        { st with
          s := bump_var_activity
            { st.s with seen := updSeen st.s.seen (litVar q) 1 }
            (litVar q) st.s.order.var_inc
          pathC := st.pathC + 1 }
      else
        { st with
          s := bump_var_activity
            { st.s with seen := updSeen st.s.seen (litVar q) 1 }
            (litVar q) st.s.order.var_inc
          learnt := st.learnt ++ [q]
          bt := if st.bt < (st.s.vars (litVar q)).level
            then (st.s.vars (litVar q)).level else st.bt }
    else st
  else st

/-- A clause scan (`for (i = ...; i < size; i++)`). -/
def analyzeScan (st : AnSt) (qs : List Lit) : AnSt := qs.foldl analyzeLit st

/-- The reason expansion guarded by `pathC > 0` and a valid reason;
skips `lits[0]` (it is `p`). -/
def analyzeExpand (st : AnSt) (reason : CRef) : AnSt :=
  if st.pathC = 0 then st
  else if reason = INVALID_CLAUSE then st
  else analyzeScan st ((clauseLitsAt st.s.arena reason).drop 1)

/-- `while (!s->seen[var(s->trail[index].lit)]) index--;` (fuelled). -/
def seenIdx (s : Solver) : Nat → Nat → Nat
  | 0, i => i
  | f + 1, i =>
    if s.seen (litVar ((s.trail.getD i default).lit)) = 0 then seenIdx s f (i - 1)
    else i

/-- One iteration body of the backward traversal, at the found trail
index `i`: clear `seen[var p]`, decrement `pathC`, and expand the
reason clause. -/
def analyzeIter (st : AnSt) (i : Nat) : AnSt :=
  analyzeExpand
    { st with
      s := { st.s with
        seen := updSeen st.s.seen (litVar ((st.s.trail.getD i default).lit)) 0 }
      pathC := st.pathC - 1 }
    ((st.s.vars (litVar ((st.s.trail.getD i default).lit))).reason)

/-- `while (pathC > 0)` (fuelled): walk the trail backwards, keeping
the literal `p` last popped; return the final state, `p`, the learnt
tail, and `bt_level`. -/
def analyzeLoop : Nat → AnSt → Nat → Lit → Option (Solver × Lit × List Lit × Nat)
  | 0, _, _, _ => none
  | fuel + 1, st, index, p =>
    if st.pathC = 0 then some (st.s, p, st.learnt, st.bt)
    else analyzeLoop fuel (analyzeIter st (seenIdx st.s (index + 1) index))
      (if 0 < seenIdx st.s (index + 1) index then seenIdx st.s (index + 1) index - 1
       else seenIdx st.s (index + 1) index)
      ((st.s.trail.getD (seenIdx st.s (index + 1) index) default).lit)

/-- The final `for` loop clearing the seen flags of the learnt
literals. -/
def clearSeen (s : Solver) (ls : List Lit) : Solver :=
  { s with seen := ls.foldl (fun f l => updSeen f (litVar l) 0) s.seen }

/-- `void solver_analyze(Solver*, CRef conflict, Lit* learnt, uint32_t*
learnt_size, Level* bt_level)` (fuelled).  Returns the state, the
learnt clause (asserting literal first) and the backtrack level; a
conflict of `INVALID_CLAUSE` is the C `ASSERT(false)` branch. -/
def solver_analyze (fuel : Nat) (s : Solver) (conflict : CRef) :
    Option (Solver × List Lit × Nat) :=
  if conflict = BINARY_CONFLICT then
    match analyzeLoop fuel
        { s := bump_var_activity
            { s with seen := updSeen s.seen (litVar ((s.trail.getD (s.trail.length - 1) default).lit)) 1 }
            (litVar ((s.trail.getD (s.trail.length - 1) default).lit)) s.order.var_inc,
          pathC := 1, learnt := [], bt := 0 }
        (s.trail.length - 1) LIT_UNDEF with
    | none => none
    | some (s', p, tail, bt) =>
      some (clearSeen s' (litNeg p :: tail), litNeg p :: tail, bt)
  else if conflict = INVALID_CLAUSE then none
  else
    match analyzeLoop fuel
        (analyzeScan { s := s, pathC := 0, learnt := [], bt := 0 }
          (clauseLitsAt s.arena conflict))
        (s.trail.length - 1) LIT_UNDEF with
    | none => none
    | some (s', p, tail, bt) =>
      some (clearSeen s' (litNeg p :: tail), litNeg p :: tail, bt)

/-- The concrete state used against C4: three decision variables at
levels 1, 2, 3 (all reasons invalid), and a stored conflict clause
`[7, 3, 5]` at offset 1 touching all three. -/
def anState : Solver :=
  { baseSolver with
    num_vars := 3
    decision_level := 3
    vars := fun u =>
      if u = 1 then { baseVarInfo with value := Lbool.TRUE, level := 1, trail_pos := 0 }
      else if u = 2 then { baseVarInfo with value := Lbool.TRUE, level := 2, trail_pos := 1 }
      else if u = 3 then { baseVarInfo with value := Lbool.TRUE, level := 3, trail_pos := 2 }
      else baseVarInfo
    trail := [⟨2, 1⟩, ⟨4, 2⟩, ⟨6, 3⟩]
    qhead := 3
    arena := { items := [⟨[7, 3, 5], false, false, 0, 0⟩], capacity := 4194304, wasted := 0 } }

/-- The fields conflict analysis reads but never writes: levels,
decision level, trail, arena and reasons. -/
def AFrame (s' s : Solver) : Prop :=
  (∀ u, (s'.vars u).level = (s.vars u).level) ∧
  s'.decision_level = s.decision_level ∧
  s'.trail = s.trail ∧
  s'.arena = s.arena ∧
  (∀ u, (s'.vars u).reason = (s.vars u).reason)

/-- Invariant of the analysis walk, relative to the entry state `s₀`:
the read-only fields are untouched, every learnt-tail literal sits at a
level strictly between 0 and the conflict decision level, and `bt` is
exactly the maximum of those levels (0 when the tail is empty). -/
def AnInv (s₀ : Solver) (st : AnSt) : Prop :=
  AFrame st.s s₀ ∧
  (∀ q ∈ st.learnt, 0 < (s₀.vars (litVar q)).level ∧
      (s₀.vars (litVar q)).level < s₀.decision_level) ∧
  (∀ q ∈ st.learnt, (s₀.vars (litVar q)).level ≤ st.bt) ∧
  (st.bt = 0 ∨ ∃ q ∈ st.learnt, (s₀.vars (litVar q)).level = st.bt)

/-- All-level-0 one-clause state used to witness the amended C4
theorem. -/
def anWit : Solver :=
  { baseSolver with
    num_vars := 1
    vars := fun u =>
      if u = 1 then { baseVarInfo with value := Lbool.TRUE, level := 0 } else baseVarInfo
    arena := { items := [⟨[3], false, false, 0, 0⟩], capacity := 4194304, wasted := 0 } }

lemma eraseHeap_heapPlace (s : Solver) (v : Var) (i : Nat) :
    eraseHeap (heapPlace s v i) = eraseHeap s := by
  simp only [eraseHeap, heapPlace]
  congr 1
  funext u
  by_cases h : u = v <;> simp [updVar, h]

lemma eraseHeap_percUpGo (v : Var) (act : ℚ) :
    ∀ fuel (s : Solver) (i : Nat), eraseHeap (percUpGo v act fuel s i) = eraseHeap s := by
  intro fuel
  induction fuel with
  | zero => intro s i; exact eraseHeap_heapPlace s v i
  | succ n ih =>
    intro s i
    simp only [percUpGo]
    split
    · exact eraseHeap_heapPlace s v i
    · split
      · exact eraseHeap_heapPlace s v i
      · rw [ih]; exact eraseHeap_heapPlace ..

lemma eraseHeap_percDownGo (v : Var) (act : ℚ) :
    ∀ fuel (s : Solver) (i : Nat), eraseHeap (percDownGo v act fuel s i) = eraseHeap s := by
  intro fuel
  induction fuel with
  | zero => intro s i; exact eraseHeap_heapPlace s v i
  | succ n ih =>
    intro s i
    simp only [percDownGo]
    repeat' split
    all_goals
      first
      | exact eraseHeap_heapPlace ..
      | (rw [ih]; exact eraseHeap_heapPlace ..)

lemma eraseHeap_heap_insert (s : Solver) (v : Var) :
    eraseHeap (heap_insert s v) = eraseHeap s := by
  simp only [heap_insert]
  split
  · rfl
  · rw [heap_percolate_up, eraseHeap_percUpGo]
    simp only [eraseHeap]
    congr 1
    funext u
    by_cases h : u = v <;> simp [updVar, h]

lemma set_append_self (l : List Var) (v : Var) :
    (l ++ [v]).set l.length v = l ++ [v] := by
  rw [List.set_append_right] <;> simp

/-- Transfer of heap membership across one percolation step: pulling
`l[p]` down into the hole at `i` and moving the hole to `p` preserves
the members of the conceptual heap (the list with `v` written into the
hole). -/
lemma mem_set_swap {l : List Var} {i p : Nat} (hi : i < l.length) (hp : p < l.length)
    (hpi : p ≠ i) {v w : Var} (hw : w ∈ l.set i v) :
    w ∈ (l.set i (l.getD p 0)).set p v := by
  rw [List.getD_eq_getElem l 0 hp]
  rcases List.mem_iff_getElem.mp hw with ⟨j, hj, hget⟩
  rw [List.length_set] at hj
  rw [List.mem_iff_getElem]
  by_cases hji : j = i
  · subst hji
    refine ⟨p, by simpa using hp, ?_⟩
    rw [List.getElem_set_self] at hget ⊢
    exact hget
  · by_cases hjp : j = p
    · subst hjp
      refine ⟨i, by simpa using hi, ?_⟩
      rw [List.getElem_set_ne (by omega)] at hget
      rw [List.getElem_set_ne (by omega), List.getElem_set_self]
      exact hget
    · refine ⟨j, by simpa using hj, ?_⟩
      rw [List.getElem_set_ne (by omega)] at hget
      rw [List.getElem_set_ne (by omega), List.getElem_set_ne (by omega)]
      exact hget

lemma percUpGo_heap_length (v : Var) (act : ℚ) :
    ∀ fuel (s : Solver) (i : Nat),
      (percUpGo v act fuel s i).order.heap.length = s.order.heap.length := by
  intro fuel
  induction fuel with
  | zero => intro s i; simp [percUpGo, heapPlace]
  | succ n ih =>
    intro s i
    simp only [percUpGo]
    repeat' split
    all_goals simp [heapPlace, ih]

lemma percUpGo_mem (v : Var) (act : ℚ) :
    ∀ fuel (s : Solver) (i : Nat), i < s.order.heap.length →
      ∀ w, w ∈ s.order.heap.set i v → w ∈ (percUpGo v act fuel s i).order.heap := by
  intro fuel
  induction fuel with
  | zero => intro s i _ w hw; simpa [percUpGo, heapPlace] using hw
  | succ n ih =>
    intro s i hi w hw
    simp only [percUpGo]
    split
    · simpa [heapPlace] using hw
    · split
      · simpa [heapPlace] using hw
      · rename_i hne _
        refine ih (heapPlace s (s.order.heap.getD ((i - 1) / 2) 0) i) ((i - 1) / 2)
          (by simpa [heapPlace] using Nat.lt_of_le_of_lt (Nat.le_trans (Nat.div_le_self _ _) (by omega)) hi) w ?_
        have hp : (i - 1) / 2 < s.order.heap.length :=
          Nat.lt_of_le_of_lt (Nat.le_trans (Nat.div_le_self _ _) (by omega)) hi
        have hpi : (i - 1) / 2 ≠ i := by omega
        simpa [heapPlace] using mem_set_swap hi hp hpi hw

lemma heapPlace_heap (s : Solver) (v : Var) (i : Nat) :
    (heapPlace s v i).order.heap = s.order.heap.set i v := rfl

lemma heapPlace_vars_ne (s : Solver) (v : Var) (i : Nat) {u : Var} (h : u ≠ v) :
    (heapPlace s v i).vars u = s.vars u := by
  simp [heapPlace, updVar, h]

lemma heapPlace_heapwf (s : Solver) (v : Var) (i : Nat) (hi : i < s.order.heap.length)
    (hpre : ∀ u, (s.vars u).heap_pos ≠ UINT32_MAX → u ∈ s.order.heap.set i v) :
    HeapWF (heapPlace s v i) := by
  intro u hu
  rw [heapPlace_heap]
  by_cases huv : u = v
  · subst huv
    rw [List.mem_iff_getElem]
    exact ⟨i, by simpa using hi, by rw [List.getElem_set_self]⟩
  · rw [heapPlace_vars_ne s v i huv] at hu
    exact hpre u hu

lemma percUpGo_heapwf (v : Var) (act : ℚ) :
    ∀ fuel (s : Solver) (i : Nat), i < s.order.heap.length →
      (∀ u, (s.vars u).heap_pos ≠ UINT32_MAX → u ∈ s.order.heap.set i v) →
      HeapWF (percUpGo v act fuel s i) := by
  intro fuel
  induction fuel with
  | zero => intro s i hi hpre; exact heapPlace_heapwf s v i hi hpre
  | succ n ih =>
    intro s i hi hpre
    rw [percUpGo]
    by_cases hi0 : i = 0
    · rw [if_pos hi0]
      exact heapPlace_heapwf s v i hi hpre
    · rw [if_neg hi0]
      have hp : (i - 1) / 2 < s.order.heap.length :=
        Nat.lt_of_le_of_lt (Nat.le_trans (Nat.div_le_self _ _) (by omega)) hi
      have hpi : (i - 1) / 2 ≠ i := by omega
      by_cases hact : (s.vars (s.order.heap.getD ((i - 1) / 2) 0)).activity ≥ act
      · rw [if_pos hact]
        exact heapPlace_heapwf s v i hi hpre
      · rw [if_neg hact]
        refine ih _ _ ?_ ?_
        · rw [heapPlace_heap, List.length_set]; exact hp
        · intro x hx
          rw [heapPlace_heap]
          by_cases hxpv : x = s.order.heap.getD ((i - 1) / 2) 0
          · subst hxpv
            rw [List.mem_iff_getElem]
            refine ⟨i, by simpa using hi, ?_⟩
            rw [List.getElem_set_ne (by omega), List.getElem_set_self,
              List.getD_eq_getElem s.order.heap 0 hp]
          · rw [heapPlace_vars_ne _ _ _ hxpv] at hx
            exact mem_set_swap hi hp hpi (hpre x hx)

lemma set_getD_self (l : List Var) (i : Nat) (h : i < l.length) :
    l.set i (l.getD i 0) = l := by
  rw [List.getD_eq_getElem l 0 h]
  apply List.ext_getElem
  · simp
  · intro n h1 h2
    by_cases hn : n = i
    · subst hn; rw [List.getElem_set_self]
    · rw [List.getElem_set_ne (by omega)]

lemma getD_append_length (l : List Var) (v : Var) :
    (l ++ [v]).getD l.length 0 = v := by
  rw [List.getD_eq_getElem _ 0 (by simp)]
  simp

lemma heap_insert_mem (s : Solver) (v : Var) {w : Var} (hw : w ∈ s.order.heap) :
    w ∈ (heap_insert s v).order.heap := by
  rw [heap_insert]
  split
  · exact hw
  · rw [heap_percolate_up]
    refine percUpGo_mem _ _ _ _ _ (by simp) w ?_
    show w ∈ (s.order.heap ++ [v]).set s.order.heap.length
      ((s.order.heap ++ [v]).getD s.order.heap.length 0)
    rw [set_getD_self _ _ (by simp)]
    exact List.mem_append_left _ hw

lemma heap_insert_mem_self (s : Solver) (v : Var) (hwf : HeapWF s) :
    v ∈ (heap_insert s v).order.heap := by
  rw [heap_insert]
  split
  · rename_i h
    exact hwf v h
  · rw [heap_percolate_up]
    refine percUpGo_mem _ _ _ _ _ (by simp) v ?_
    show v ∈ (s.order.heap ++ [v]).set s.order.heap.length
      ((s.order.heap ++ [v]).getD s.order.heap.length 0)
    rw [set_getD_self _ _ (by simp)]
    exact List.mem_append_right _ (List.mem_singleton.mpr rfl)

lemma heap_insert_heapwf (s : Solver) (v : Var) (hwf : HeapWF s) :
    HeapWF (heap_insert s v) := by
  rw [heap_insert]
  split
  · exact hwf
  · rw [heap_percolate_up]
    refine percUpGo_heapwf _ _ _ _ _ (by simp) ?_
    intro u hu
    rw [set_getD_self _ _ (by simp)]
    by_cases huv : u = v
    · subst huv
      exact List.mem_append_right _ (List.mem_singleton.mpr rfl)
    · simp only [updVar] at hu
      rw [if_neg huv] at hu
      exact List.mem_append_left _ (hwf u hu)

lemma undoFrame_refl (s : Solver) : UndoFrame s s :=
  ⟨rfl, rfl, rfl, rfl, rfl, rfl, rfl, rfl, rfl, rfl, rfl, rfl, rfl, rfl,
   fun _ => ⟨rfl, rfl, rfl⟩⟩

lemma undoFrame_trans {a b c : Solver} (h1 : UndoFrame a b) (h2 : UndoFrame b c) :
    UndoFrame a c := by
  obtain ⟨t1, q1, d1, a1, l1, r1, w1, o1, e1, n1, m1, tl1, st1, se1, v1⟩ := h1
  obtain ⟨t2, q2, d2, a2, l2, r2, w2, o2, e2, n2, m2, tl2, st2, se2, v2⟩ := h2
  refine ⟨t2.trans t1, q2.trans q1, d2.trans d1, a2.trans a1, l2.trans l1, r2.trans r1,
    w2.trans w1, o2.trans o1, e2.trans e1, n2.trans n1, m2.trans m1, tl2.trans tl1,
    st2.trans st1, se2.trans se1, fun u => ?_⟩
  obtain ⟨p1, ac1, tp1⟩ := v1 u
  obtain ⟨p2, ac2, tp2⟩ := v2 u
  exact ⟨p2.trans p1, ac2.trans ac1, tp2.trans tp1⟩

lemma undoFrame_of_eraseHeap {s s' : Solver} (h : eraseHeap s' = eraseHeap s) :
    UndoFrame s s' := by
  simp only [eraseHeap, Solver.mk.injEq, OrderSt.mk.injEq] at h
  obtain ⟨hnv, hnc, hno, har, hwa, hva, htr, hq, htl, hdl, hcl, hle, hor, hse, hre, hst,
    hws, hop, hrs⟩ := h
  refine ⟨htr, hq, hdl, har, hle, hre, hwa, hop, hrs, hnv, hnc, htl, hst, hse, fun u => ?_⟩
  have hu := congrFun hva u
  simp only [VarInfo.mk.injEq] at hu
  exact ⟨hu.2.2.2.2.1, hu.2.2.2.2.2.1, hu.2.2.2.1⟩

lemma undoAssign_frame (s : Solver) (v : Var) : UndoFrame s (undoAssign s v) := by
  refine ⟨rfl, rfl, rfl, rfl, rfl, rfl, rfl, rfl, rfl, rfl, rfl, rfl, rfl, rfl, fun u => ?_⟩
  by_cases h : u = v <;> simp [undoAssign, updVar, h]

lemma undoOne_frame (s : Solver) (e : TrailE) : UndoFrame s (undoOne s e) := by
  rw [undoOne]
  split
  · exact undoFrame_trans (undoAssign_frame ..) (undoFrame_of_eraseHeap (eraseHeap_heap_insert ..))
  · exact undoAssign_frame ..

lemma foldl_undoOne_frame : ∀ (l : List TrailE) (s : Solver), UndoFrame s (l.foldl undoOne s) := by
  intro l
  induction l with
  | nil => intro s; exact undoFrame_refl s
  | cons e t ih =>
    intro s
    simp only [List.foldl_cons]
    exact undoFrame_trans (undoOne_frame s e) (ih (undoOne s e))

lemma undoAssign_heap_pos (s : Solver) (v u : Var) :
    ((undoAssign s v).vars u).heap_pos = (s.vars u).heap_pos := by
  by_cases h : u = v <;> simp [undoAssign, updVar, h]

lemma undoAssign_heapwf {s : Solver} (hwf : HeapWF s) (v : Var) :
    HeapWF (undoAssign s v) := by
  intro u hu
  rw [undoAssign_heap_pos] at hu
  exact hwf u hu

lemma undoOne_heapwf (s : Solver) (e : TrailE) (hwf : HeapWF s) : HeapWF (undoOne s e) := by
  rw [undoOne]
  split
  · exact heap_insert_heapwf _ _ (undoAssign_heapwf hwf _)
  · exact undoAssign_heapwf hwf _

lemma eraseHeap_vars_value {s s' : Solver} (h : eraseHeap s' = eraseHeap s) (u : Var) :
    (s'.vars u).value = (s.vars u).value :=
  congrArg (fun t => ((t.vars u)).value) h

lemma eraseHeap_vars_level {s s' : Solver} (h : eraseHeap s' = eraseHeap s) (u : Var) :
    (s'.vars u).level = (s.vars u).level :=
  congrArg (fun t => ((t.vars u)).level) h

lemma eraseHeap_vars_reason {s s' : Solver} (h : eraseHeap s' = eraseHeap s) (u : Var) :
    (s'.vars u).reason = (s.vars u).reason :=
  congrArg (fun t => ((t.vars u)).reason) h

lemma undoAssign_vars_self (s : Solver) (v : Var) :
    ((undoAssign s v).vars v).value = Lbool.UNDEF ∧
    ((undoAssign s v).vars v).level = INVALID_LEVEL ∧
    ((undoAssign s v).vars v).reason = INVALID_CLAUSE := by
  simp [undoAssign, updVar]

lemma undoOne_undone_self (s : Solver) (e : TrailE) (hwf : HeapWF s) :
    Undone (undoOne s e) (litVar e.lit) := by
  rw [undoOne]
  split
  · obtain ⟨h1, h2, h3⟩ := undoAssign_vars_self s (litVar e.lit)
    have he := eraseHeap_heap_insert (undoAssign s (litVar e.lit)) (litVar e.lit)
    refine ⟨(eraseHeap_vars_value he _).trans h1, (eraseHeap_vars_level he _).trans h2,
      (eraseHeap_vars_reason he _).trans h3, ?_⟩
    exact heap_insert_mem_self _ _ (undoAssign_heapwf hwf _)
  · rename_i h
    obtain ⟨h1, h2, h3⟩ := undoAssign_vars_self s (litVar e.lit)
    refine ⟨h1, h2, h3, ?_⟩
    rw [undoAssign_heap_pos] at h
    exact hwf _ (by simpa using h)

lemma undoAssign_value_undef {s : Solver} {u : Var} (v : Var)
    (h : (s.vars u).value = Lbool.UNDEF) : ((undoAssign s v).vars u).value = Lbool.UNDEF := by
  by_cases huv : u = v <;> simp [undoAssign, updVar, huv, h]

lemma undoAssign_level_inv {s : Solver} {u : Var} (v : Var)
    (h : (s.vars u).level = INVALID_LEVEL) :
    ((undoAssign s v).vars u).level = INVALID_LEVEL := by
  by_cases huv : u = v <;> simp [undoAssign, updVar, huv, h]

lemma undoAssign_reason_inv {s : Solver} {u : Var} (v : Var)
    (h : (s.vars u).reason = INVALID_CLAUSE) :
    ((undoAssign s v).vars u).reason = INVALID_CLAUSE := by
  by_cases huv : u = v <;> simp [undoAssign, updVar, huv, h]

lemma undoOne_undone_pres (s : Solver) (e : TrailE) (u : Var)
    (h : Undone s u) : Undone (undoOne s e) u := by
  obtain ⟨h1, h2, h3, h4⟩ := h
  rw [undoOne]
  split
  · have he := eraseHeap_heap_insert (undoAssign s (litVar e.lit)) (litVar e.lit)
    refine ⟨(eraseHeap_vars_value he _).trans (undoAssign_value_undef _ h1),
      (eraseHeap_vars_level he _).trans (undoAssign_level_inv _ h2),
      (eraseHeap_vars_reason he _).trans (undoAssign_reason_inv _ h3), ?_⟩
    exact heap_insert_mem _ _ h4
  · exact ⟨undoAssign_value_undef _ h1, undoAssign_level_inv _ h2,
      undoAssign_reason_inv _ h3, h4⟩

lemma foldl_undoOne_spec : ∀ (l : List TrailE) (s : Solver), HeapWF s →
    HeapWF (l.foldl undoOne s) ∧ (∀ u, Undone s u → Undone (l.foldl undoOne s) u) ∧
    (∀ e, e ∈ l → Undone (l.foldl undoOne s) (litVar e.lit)) := by
  intro l
  induction l with
  | nil =>
    intro s h
    exact ⟨h, fun _ hu => hu, fun e he => absurd he (List.not_mem_nil e)⟩
  | cons e t ih =>
    intro s hwf
    simp only [List.foldl_cons]
    obtain ⟨ih1, ih2, ih3⟩ := ih (undoOne s e) (undoOne_heapwf s e hwf)
    refine ⟨ih1, fun u hu => ih2 u (undoOne_undone_pres s e u hu), fun e' he' => ?_⟩
    rcases List.mem_cons.mp he' with he' | he'
    · rw [he']
      exact ih2 _ (undoOne_undone_self s e hwf)
    · exact ih3 e' he'

/-! ## C10 and C6 -/

/-- C10: for every variable index `v` strictly greater than the
solver's `num_vars`, `solver_model_value(s, v)` returns `UNDEF` without
reading any per-variable state — the result is the same for every
contents of the `vars` table — in every solver state. -/
theorem modelValue_undef_beyond_num_vars (s : Solver) (f : Var → VarInfo) (v : Var)
    (h : v > s.num_vars) :
    solver_model_value { s with vars := f } v = Lbool.UNDEF := by
  rw [solver_model_value, if_pos]
  exact h

/-- Witness for C10 at a concrete state. -/
theorem modelValue_undef_beyond_num_vars_witness :
    1 > baseSolver.num_vars ∧
    solver_model_value { baseSolver with vars := fun _ => baseVarInfo } 1 = Lbool.UNDEF :=
  ⟨by decide, modelValue_undef_beyond_num_vars baseSolver (fun _ => baseVarInfo) 1 (by decide)⟩

/-- C6: for every solver state with `decision_level > ℓ` (and a
position table consistent with the heap), `solver_backtrack(s, ℓ)`
truncates the trail at `trail_lims[ℓ]` (position 0 if `ℓ = 0`), sets
`qhead` and `trail_size` to that position and `decision_level` to `ℓ`;
every variable assigned at a dropped trail position gets value `UNDEF`,
level `INVALID_LEVEL`, reason `INVALID_CLAUSE` and is present in the
order heap afterwards; and every variable's saved polarity and activity
are unchanged. -/
theorem backtrack_undoes_suffix_and_preserves_phase (s : Solver) (lvl : Nat)
    (hlt : lvl < s.decision_level)
    (hwf : ∀ u, (s.vars u).heap_pos ≠ UINT32_MAX → u ∈ s.order.heap)
    (hpos : (if lvl = 0 then 0 else s.trail_lims lvl) ≤ s.trail.length) :
    (solver_backtrack s lvl).trail = s.trail.take (if lvl = 0 then 0 else s.trail_lims lvl) ∧
    (solver_backtrack s lvl).trail.length = (if lvl = 0 then 0 else s.trail_lims lvl) ∧
    (solver_backtrack s lvl).qhead = (if lvl = 0 then 0 else s.trail_lims lvl) ∧
    (solver_backtrack s lvl).decision_level = lvl ∧
    (∀ e ∈ s.trail.drop (if lvl = 0 then 0 else s.trail_lims lvl),
      ((solver_backtrack s lvl).vars (litVar e.lit)).value = Lbool.UNDEF ∧
      ((solver_backtrack s lvl).vars (litVar e.lit)).level = INVALID_LEVEL ∧
      ((solver_backtrack s lvl).vars (litVar e.lit)).reason = INVALID_CLAUSE ∧
      litVar e.lit ∈ (solver_backtrack s lvl).order.heap) ∧
    (∀ u, ((solver_backtrack s lvl).vars u).polarity = (s.vars u).polarity ∧
          ((solver_backtrack s lvl).vars u).activity = (s.vars u).activity) := by
  rw [solver_backtrack, if_neg (by omega)]
  obtain ⟨hwf', _, hundone⟩ :=
    foldl_undoOne_spec (s.trail.drop (if lvl = 0 then 0 else s.trail_lims lvl)) s hwf
  have hframe := foldl_undoOne_frame (s.trail.drop (if lvl = 0 then 0 else s.trail_lims lvl)) s
  refine ⟨rfl, ?_, rfl, rfl, fun e he => ?_, fun u => ?_⟩
  · simpa using hpos
  · exact hundone e he
  · exact ⟨(hframe.2.2.2.2.2.2.2.2.2.2.2.2.2.2 u).1, (hframe.2.2.2.2.2.2.2.2.2.2.2.2.2.2 u).2.1⟩

/-- Witness for C6 at a concrete state: backtracking the one-decision
state to level 0 unassigns variable 1 and re-inserts it in the heap. -/
theorem backtrack_undoes_suffix_witness :
    ((solver_backtrack btState 0).vars 1).value = Lbool.UNDEF ∧
    (solver_backtrack btState 0).decision_level = 0 ∧
    1 ∈ (solver_backtrack btState 0).order.heap := by
  have hwf : ∀ u, (btState.vars u).heap_pos ≠ UINT32_MAX → u ∈ btState.order.heap := by
    intro u hu
    exfalso
    apply hu
    by_cases h : u = 1 <;> simp [btState, baseSolver, baseVarInfo, h]
  have h := backtrack_undoes_suffix_and_preserves_phase btState 0 (by decide) hwf (by decide)
  have hmem : (⟨2, 1⟩ : TrailE) ∈ btState.trail.drop (if 0 = 0 then 0 else btState.trail_lims 0) := by
    decide
  have he := h.2.2.2.2.1 ⟨2, 1⟩ hmem
  exact ⟨he.1, h.2.2.2.1, he.2.2.2⟩

/-! ## C8: UNSAT at clause addition, idempotent UNSAT solve -/

/-- C8: adding the empty clause, or a unit clause whose literal is
already false, returns `false` and sets `result` to `FALSE` (UNSAT)
while changing nothing else; and once `result = FALSE`, every call of
`solver_solve` (i.e. `solver_solve_with_assumptions` with an empty
assumption list, for any translation `rest` of the remainder of the
function) returns UNSAT immediately with the state unchanged. -/
theorem addClause_unsat_and_solve_idempotent (s : Solver) (l : Lit)
    (rest : Solver → List Lit → Lbool × Solver) :
    (solver_add_clause s [] = ({ s with result := Lbool.FALSE }, false)) ∧
    (litValFalse ((s.vars (litVar l)).value) l = true →
      solver_add_clause s [l] = ({ s with result := Lbool.FALSE }, false)) ∧
    (∀ s₂ : Solver, s₂.result = Lbool.FALSE →
      solver_solve rest s₂ = (Lbool.FALSE, s₂)) := by
  refine ⟨?_, ?_, ?_⟩
  · rw [solver_add_clause]
    simp
  · intro hfalse
    rw [solver_add_clause]
    rw [if_neg (by simp : ¬ ([l].length = 0)), if_pos (by simp : [l].length = 1)]
    simp only [List.getD_cons_zero]
    have hne : (s.vars (litVar l)).value ≠ Lbool.UNDEF := by
      intro h
      rw [h] at hfalse
      unfold litValFalse at hfalse
      split at hfalse
      · exact absurd hfalse (by decide)
      · exact absurd hfalse (by decide)
    rw [if_neg hne, if_pos hfalse]
  · intro s₂ h2
    rw [solver_solve, solver_solve_with_assumptions, if_pos (by rw [h2]; decide)]
    rw [h2]

/-- Witness for C8 at a concrete state: variable 1 is `TRUE`, so the
unit clause holding its negative literal (3) is already false. -/
theorem addClause_unsat_witness :
    litValFalse ((btState.vars (litVar 3)).value) 3 = true ∧
    solver_add_clause btState [3] = ({ btState with result := Lbool.FALSE }, false) ∧
    solver_solve (fun t _ => (Lbool.UNDEF, t)) { btState with result := Lbool.FALSE } =
      (Lbool.FALSE, { btState with result := Lbool.FALSE }) := by
  have h := addClause_unsat_and_solve_idempotent btState 3 (fun t _ => (Lbool.UNDEF, t))
  refine ⟨by decide, h.2.1 (by decide), h.2.2 _ rfl⟩

lemma calcLbdAux_length (s : Solver) :
    ∀ (lits : List Lit) (acc : List Nat),
      (calcLbdAux s lits acc).length ≤ acc.length + lits.length := by
  intro lits
  induction lits with
  | nil => intro acc; simp [calcLbdAux]
  | cons l rest ih =>
    intro acc
    rw [calcLbdAux]
    split
    · calc (calcLbdAux s rest acc).length ≤ acc.length + rest.length := ih acc
        _ ≤ acc.length + (l :: rest).length := by simp
    · split
      · calc (calcLbdAux s rest acc).length ≤ acc.length + rest.length := ih acc
          _ ≤ acc.length + (l :: rest).length := by simp
      · split
        · calc (calcLbdAux s rest (acc ++ [(s.vars (litVar l)).level])).length
              ≤ (acc ++ [(s.vars (litVar l)).level]).length + rest.length := ih _
            _ = acc.length + (l :: rest).length := by simp [Nat.add_comm, Nat.add_assoc, Nat.add_left_comm]
        · calc (calcLbdAux s rest acc).length ≤ acc.length + rest.length := ih acc
            _ ≤ acc.length + (l :: rest).length := by simp

lemma calc_lbd_le_length (s : Solver) (lits : List Lit) :
    calc_lbd s lits ≤ lits.length := by
  have := calcLbdAux_length s lits []
  simpa [calc_lbd] using this

lemma findAux_append (items : List ClauseRec) (rec : ClauseRec) :
    ∀ off, arenaFindAux (items ++ [rec]) off (off + (items.map clauseWords).sum) = some rec := by
  induction items with
  | nil => intro off; simp [arenaFindAux]
  | cons c rest ih =>
    intro off
    rw [List.cons_append, arenaFindAux]
    rw [if_neg (by simp [clauseWords, headerWords])]
    have := ih (off + clauseWords c)
    simpa [Nat.add_assoc] using this

lemma setAux_append (items : List ClauseRec) (rec : ClauseRec) (f : ClauseRec → ClauseRec) :
    ∀ off, arenaSetAux (items ++ [rec]) off (off + (items.map clauseWords).sum) f =
      items ++ [f rec] := by
  induction items with
  | nil => intro off; simp [arenaSetAux]
  | cons c rest ih =>
    intro off
    rw [List.cons_append, arenaSetAux]
    rw [if_neg (by simp [clauseWords, headerWords])]
    have := ih (off + clauseWords c)
    rw [List.cons_append]
    congr 1
    simpa [Nat.add_assoc] using this

lemma arena_grow_shape (a : Arena) (n : Nat) :
    arena_grow a n = none ∨
    ∃ cap, arena_grow a n = some { items := a.items, capacity := cap, wasted := a.wasted } := by
  rw [arena_grow]
  cases hg : growCapLoop (arenaSize a + n + 2) a.capacity (arenaSize a + n) with
  | none => exact Or.inl rfl
  | some cap => exact Or.inr ⟨cap, rfl⟩

lemma arena_alloc_shape (a : Arena) (lits : List Lit) (learned : Bool) :
    (arena_alloc a lits learned).1 = INVALID_CLAUSE ∨
    ((arena_alloc a lits learned).1 = arenaSize a ∧
     ∃ cap, (arena_alloc a lits learned).2 =
       { items := a.items ++ [⟨lits, learned, false, 0, 0⟩], capacity := cap,
         wasted := a.wasted }) := by
  rw [arena_alloc]
  by_cases hc : arenaSize a + (headerWords + lits.length) > a.capacity
  · rw [if_pos hc]
    rcases arena_grow_shape a (headerWords + lits.length) with hg | ⟨cap, hg⟩
    · rw [hg]
      exact Or.inl rfl
    · rw [hg]
      exact Or.inr ⟨rfl, ⟨cap, rfl⟩⟩
  · rw [if_neg hc]
    exact Or.inr ⟨rfl, ⟨a.capacity, rfl⟩⟩

/-- C9: whenever the solve loop's insertion step stores a learnt clause
(the arena allocation did not fail), the LBD recorded in the stored
clause's header — `calc_lbd`, the number of distinct non-zero decision
levels among its literals — is at most the clause's number of
literals. -/
theorem learnt_lbd_le_size (s : Solver) (lits : List Lit)
    (h : (learnClauseInsert s lits).2 ≠ INVALID_CLAUSE) :
    ∃ rec, arenaGet (learnClauseInsert s lits).1.arena (learnClauseInsert s lits).2 = some rec ∧
      rec.lits = lits ∧ rec.lbd ≤ rec.lits.length := by
  rcases arena_alloc_shape s.arena lits true with hfail | ⟨hcref, cap, harena⟩
  · rw [learnClauseInsert, if_neg (by simp [hfail])] at h ⊢
    exact absurd hfail h
  · have hne : (arena_alloc s.arena lits true).1 ≠ INVALID_CLAUSE := by
      rw [learnClauseInsert] at h
      by_cases hc : (arena_alloc s.arena lits true).1 ≠ INVALID_CLAUSE
      · exact hc
      · rw [if_neg hc] at h; exact h
    rw [learnClauseInsert, if_pos hne]
    refine ⟨⟨lits, true, false, calc_lbd s lits, 0⟩, ?_, rfl, calc_lbd_le_length s lits⟩
    show arenaGet (set_clause_lbd (arena_alloc s.arena lits true).2
      (arena_alloc s.arena lits true).1 (calc_lbd s lits)) (arena_alloc s.arena lits true).1 = _
    rw [hcref, harena, set_clause_lbd, arenaSet, arenaGet]
    have hsize : arenaSize s.arena = 1 + (s.arena.items.map clauseWords).sum := rfl
    rw [hsize]
    rw [setAux_append s.arena.items (⟨lits, true, false, 0, 0⟩ : ClauseRec)
      (fun r => { r with lbd := calc_lbd s lits }) 1]
    exact findAux_append s.arena.items _ 1

/-- Witness for C9: inserting a 3-literal learnt clause into the
one-variable state records an LBD of at most 3. -/
theorem learnt_lbd_le_size_witness :
    (learnClauseInsert btState [3, 5, 7]).2 ≠ INVALID_CLAUSE ∧
    ∃ rec, arenaGet (learnClauseInsert btState [3, 5, 7]).1.arena
        (learnClauseInsert btState [3, 5, 7]).2 = some rec ∧
      rec.lits = [3, 5, 7] ∧ rec.lbd ≤ rec.lits.length :=
  ⟨by decide, learnt_lbd_le_size btState [3, 5, 7] (by decide)⟩

lemma shouldRestart_cases (s : Solver) :
    ((solver_should_restart s).2 = s ∧ ¬(s.restart.conflicts_since ≥ s.restart.threshold)) ∨
    ((solver_should_restart s).2 = resetGeom s ∧ s.restart.conflicts_since ≥ s.restart.threshold) ∨
    ((solver_should_restart s).2 = s ∧ (solver_should_restart s).1 = false) := by
  have hgeom : ∀ g : Bool,
      ((geomReturn s g).2 = s ∧ ¬(s.restart.conflicts_since ≥ s.restart.threshold)) ∨
      ((geomReturn s g).2 = resetGeom s ∧ s.restart.conflicts_since ≥ s.restart.threshold) := by
    intro g
    rw [geomReturn]
    by_cases hc : s.restart.conflicts_since ≥ s.restart.threshold
    · rw [if_pos hc]; exact Or.inr ⟨rfl, hc⟩
    · rw [if_neg hc]; exact Or.inl ⟨rfl, hc⟩
  rw [solver_should_restart]
  by_cases h1 : s.opts.glucose_restart
  · rw [if_pos h1]
    by_cases h2 : s.stats.conflicts > s.opts.glucose_min_conflicts
    · rw [if_pos h2]
      by_cases h3 : s.restart.fast_ma > s.restart.slow_ma
      · rw [if_pos h3]
        by_cases h4 : s.opts.restart_postpone > 0
        · rw [if_pos h4]
          by_cases h5 : s.trail.length < s.opts.restart_postpone
          · rw [if_pos h5]; exact Or.inr (Or.inr ⟨rfl, rfl⟩)
          · rw [if_neg h5]
            rcases hgeom true with h | h
            · exact Or.inl h
            · exact Or.inr (Or.inl h)
        · rw [if_neg h4]
          rcases hgeom true with h | h
          · exact Or.inl h
          · exact Or.inr (Or.inl h)
      · rw [if_neg h3]
        rcases hgeom false with h | h
        · exact Or.inl h
        · exact Or.inr (Or.inl h)
    · rw [if_neg h2]
      rcases hgeom false with h | h
      · exact Or.inl h
      · exact Or.inr (Or.inl h)
  · rw [if_neg h1]
    by_cases hc : s.restart.conflicts_since ≥ s.restart.threshold
    · rw [if_pos hc]; exact Or.inr (Or.inl ⟨rfl, hc⟩)
    · rw [if_neg hc]; exact Or.inl ⟨rfl, hc⟩

lemma backtrack_frame (s : Solver) (lvl : Nat) :
    (solver_backtrack s lvl).learnts = s.learnts ∧
    (solver_backtrack s lvl).arena = s.arena ∧
    (solver_backtrack s lvl).restart = s.restart ∧
    (solver_backtrack s lvl).stats = s.stats ∧
    (∀ u, ((solver_backtrack s lvl).vars u).polarity = (s.vars u).polarity ∧
          ((solver_backtrack s lvl).vars u).activity = (s.vars u).activity) ∧
    (solver_backtrack s lvl).decision_level =
      (if lvl ≥ s.decision_level then s.decision_level else lvl) := by
  rw [solver_backtrack]
  by_cases hge : lvl ≥ s.decision_level
  · rw [if_pos hge]
    exact ⟨rfl, rfl, rfl, rfl, fun u => ⟨rfl, rfl⟩, by rw [if_pos hge]⟩
  · rw [if_neg hge]
    have hframe := foldl_undoOne_frame (s.trail.drop (if lvl = 0 then 0 else s.trail_lims lvl)) s
    obtain ⟨_, _, _, har, hle, hre, _, _, _, _, _, _, hst, _, hv⟩ := hframe
    exact ⟨hle, har, hre, hst, fun u => ⟨(hv u).1, (hv u).2.1⟩, by rw [if_neg hge]⟩

/-- Counterexample for C7: in `glucoseFireState` the restart fires via
the Glucose condition (fast MA 2 > slow MA 1, 101 > 100 conflicts,
trail not shorter than the postpone bound), yet after the solve loop's
restart step `conflicts_since` is still 5, not 0. -/
theorem restart_glucose_keeps_conflicts_since :
    (solver_should_restart glucoseFireState).1 = true ∧
    (restartStep glucoseFireState 0).restart.conflicts_since = 5 := by decide

/-- C7 (amended): whenever `solver_should_restart` fires, the solve
loop backtracks to `n_assumps` (the level of the active assumptions; 0
if none — a no-op when already at or below it), keeps all learned
clauses (the `learnts` array and the arena are unchanged), preserves
every variable's saved polarity and activity, and increments the
restart counter; but `conflicts_since` is reset to 0 only when the
geometric condition `conflicts_since ≥ threshold` fired — a restart
fired by the Glucose condition alone leaves `conflicts_since`
unchanged. -/
theorem restart_fires_spec (s : Solver) (n_assumps : Nat)
    (hfire : (solver_should_restart s).1 = true) :
    (restartStep s n_assumps).learnts = s.learnts ∧
    (restartStep s n_assumps).arena = s.arena ∧
    (∀ u, ((restartStep s n_assumps).vars u).polarity = (s.vars u).polarity ∧
          ((restartStep s n_assumps).vars u).activity = (s.vars u).activity) ∧
    (restartStep s n_assumps).decision_level =
      (if n_assumps ≥ s.decision_level then s.decision_level else n_assumps) ∧
    (restartStep s n_assumps).restart.conflicts_since =
      (if s.restart.conflicts_since ≥ s.restart.threshold then 0 else s.restart.conflicts_since) ∧
    (restartStep s n_assumps).stats.restarts = s.stats.restarts + 1 := by
  rw [restartStep, if_pos hfire]
  rcases shouldRestart_cases s with ⟨hs, hc⟩ | ⟨hs, hc⟩ | ⟨_, hc⟩
  · rw [hs]
    obtain ⟨hle, har, hre, hst, hv, hdl⟩ := backtrack_frame s n_assumps
    refine ⟨hle, har, fun u => hv u, hdl, ?_, ?_⟩
    · show (solver_backtrack s n_assumps).restart.conflicts_since = _
      rw [hre, if_neg hc]
    · show (solver_backtrack s n_assumps).stats.restarts + 1 = s.stats.restarts + 1
      rw [hst]
  · rw [hs]
    obtain ⟨hle, har, hre, hst, hv, hdl⟩ := backtrack_frame (resetGeom s) n_assumps
    refine ⟨hle, har, fun u => hv u, hdl, ?_, ?_⟩
    · show (solver_backtrack (resetGeom s) n_assumps).restart.conflicts_since = _
      rw [hre, if_pos hc]
      rfl
    · show (solver_backtrack (resetGeom s) n_assumps).stats.restarts + 1 = s.stats.restarts + 1
      rw [hst]
      rfl
  · rw [hfire] at hc
    exact absurd hc (by decide)

/-- Witness for C7 (amended) at the Glucose-firing state. -/
theorem restart_fires_spec_witness :
    (solver_should_restart glucoseFireState).1 = true ∧
    (restartStep glucoseFireState 0).learnts = glucoseFireState.learnts ∧
    (restartStep glucoseFireState 0).stats.restarts = glucoseFireState.stats.restarts + 1 := by
  have h := restart_fires_spec glucoseFireState 0 (by decide)
  exact ⟨by decide, h.1, h.2.2.2.2.2⟩

/-- C5 (failing input): with phase saving enabled and variable 1's
saved polarity `false` (phase FALSE), `solver_decide` nevertheless
assigns the variable `TRUE` (the positive literal 2), contradicting the
claim that the decision polarity equals the saved polarity; and with
phase saving and random phase both disabled the decision also assigns
`TRUE`, not the claimed FALSE.  (In `solver_decide` the guard
`phase_saving && polarity` skips the saved-phase branch whenever the
saved polarity is `false`, and the fallback `sign = polarity` then
selects the positive literal; with phase saving disabled the fallback
does the same.) -/
theorem decide_ignores_false_saved_polarity :
    decideState.opts.phase_saving = true ∧
    (decideState.vars 1).polarity = false ∧
    (solver_decide decideState 0 false).1 = true ∧
    ((solver_decide decideState 0 false).2.trail.getLast?).map TrailE.lit = some 2 ∧
    ((solver_decide decideState 0 false).2.vars 1).value = Lbool.TRUE ∧
    decideStateNoPS.opts.phase_saving = false ∧
    decideStateNoPS.opts.random_phase = false ∧
    (solver_decide decideStateNoPS 0 false).1 = true ∧
    ((solver_decide decideStateNoPS 0 false).2.vars 1).value = Lbool.TRUE := by decide

lemma findAux_replicate (r : ClauseRec) :
    ∀ (n k off : Nat), k < n →
      arenaFindAux (List.replicate n r) off (off + clauseWords r * k) = some r := by
  intro n
  induction n with
  | zero => intro k off hk; omega
  | succ m ih =>
    intro k off hk
    rw [List.replicate_succ, arenaFindAux]
    by_cases hk0 : k = 0
    · subst hk0
      rw [if_pos (by omega)]
    · rw [if_neg (by simp [clauseWords, headerWords]; omega)]
      have hrec := ih (k - 1) (off + clauseWords r) (by omega)
      have harith : off + clauseWords r + clauseWords r * (k - 1) = off + clauseWords r * k := by
        have hks : k = (k - 1) + 1 := by omega
        calc off + clauseWords r + clauseWords r * (k - 1)
            = off + (clauseWords r * (k - 1) + clauseWords r) := by omega
          _ = off + clauseWords r * ((k - 1) + 1) := by rw [Nat.mul_succ]
          _ = off + clauseWords r * k := by rw [← hks]
      rw [harith] at hrec
      exact hrec

lemma badReduceState_get (k : Nat) (hk : k < 1001) :
    arenaGet badReduceState.arena (1 + 6 * k) = some learnedRec := by
  have h := findAux_replicate learnedRec 1001 k 1 hk
  have hw : clauseWords learnedRec = 6 := by decide
  rw [hw] at h
  exact h

set_option maxRecDepth 16000 in
/-- C1 (failing input): `badReduceState` has 1001 live learned clauses
— strictly more than `num_originals / 2 + 1000 = 1000` — each with LBD
5 above the glue threshold, so the claimed reduction would sort them
and delete the worse half.  But `solver_reduce_db` counts learned
clauses by scanning `s->clauses` (which holds only original clauses;
the learnt references live in `s->learnts`), finds none, and returns
without deleting anything: the arena, the deletion statistics and the
learnt list are unchanged. -/
theorem reduce_db_never_deletes :
    1000 < liveLearnedCount badReduceState ∧
    (solver_reduce_db badReduceState).arena = badReduceState.arena ∧
    (solver_reduce_db badReduceState).stats.deleted_clauses = 0 ∧
    (solver_reduce_db badReduceState).learnts = badReduceState.learnts := by
  constructor
  · have hfilter : badReduceState.learnts.filter
        (fun c => !clause_deleted badReduceState.arena c && clause_learned badReduceState.arena c)
        = badReduceState.learnts := by
      rw [List.filter_eq_self]
      intro c hc
      have hc' : c ∈ (List.range 1001).map (fun k => 1 + 6 * k) := hc
      rw [List.mem_map] at hc'
      obtain ⟨k, hk, hck⟩ := hc'
      rw [List.mem_range] at hk
      have hg := badReduceState_get k hk
      rw [← hck]
      simp [clause_deleted, clause_learned, hg, learnedRec]
    rw [liveLearnedCount, hfilter]
    show 1000 < ((List.range 1001).map (fun k => 1 + 6 * k)).length
    simp
  · rw [solver_reduce_db, if_pos (by decide)]
    exact ⟨rfl, rfl, rfl⟩

/-- C2 (failing input): `gcArena` is over the 25% waste threshold, so
`arena_gc` compacts — the live clause moves from offset 5 to offset 1
(`relocAux` maps 5 to 1), the caller's `clauses` array is rewritten
from `[5]` to `[1]` and `wasted` becomes 0 — but the supplied watch
list still holds the stale offset 5 afterwards: the watch-update loop
iterates over `watch_size = 0` entries (`uint32_t watch_size = 0;
// Need to track this properly` in `arena.c`), contradicting both the
claim and the header comment "Updates all CRefs in the provided
arrays". -/
theorem arena_gc_leaves_watches_stale :
    gcArena.wasted * 4 ≥ arenaSize gcArena ∧
    (arena_gc gcArena [[5]] [5]).1.wasted = 0 ∧
    (arena_gc gcArena [[5]] [5]).2.2 = [1] ∧
    relocAux gcArena.items 1 1 5 = 1 ∧
    (arena_gc gcArena [[5]] [5]).2.1 = [[5]] := by decide

/-! ### C3 support: literal facts -/

/-- Negation flips the sign bit. -/
lemma litSign_litNeg (l : Lit) : litSign (litNeg l) = !(litSign l) := by
  have h0 := Nat.testBit_xor l 1 0
  simp only [Nat.testBit_zero] at h0
  unfold litSign litNeg
  rcases Nat.mod_two_eq_zero_or_one l with h | h <;>
    rcases Nat.mod_two_eq_zero_or_one (l ^^^ 1) with h' | h' <;>
      simp [h, h'] at h0 ⊢

/-- Negation keeps the variable. -/
lemma litVar_litNeg (l : Lit) : litVar (litNeg l) = litVar l := by
  unfold litVar litNeg
  apply Nat.eq_of_testBit_eq
  intro i
  have ha := Nat.testBit_div_two (l ^^^ 1) i
  have hb := Nat.testBit_div_two l i
  rw [ha, hb, Nat.testBit_xor]
  simp [Nat.testBit_succ]

/-- An unassigned variable satisfies no literal. -/
lemma litValTrue_undef (l : Lit) : litValTrue Lbool.UNDEF l = false := by
  cases hs : litSign l <;> simp [litValTrue, hs]

/-- A true literal is over an assigned variable. -/
lemma litValTrue_ne_undef {v : Lbool} {l : Lit}
    (h : litValTrue v l = true) : v ≠ Lbool.UNDEF := by
  intro hv
  rw [hv, litValTrue_undef] at h
  exact Bool.false_ne_true h

/-- If the literal is true its negation is false. -/
lemma litValFalse_litNeg {v : Lbool} {p : Lit}
    (h : litValTrue v p = true) : litValFalse v (litNeg p) = true := by
  unfold litValFalse
  rw [litSign_litNeg]
  unfold litValTrue at h
  cases hsp : litSign p <;> rw [hsp] at h <;> simpa using h

/-- Assigned and not true means false (the C three-valued trichotomy). -/
lemma litValFalse_of_not_true {v : Lbool} {l : Lit}
    (h1 : v ≠ Lbool.UNDEF) (h2 : litValTrue v l = false) :
    litValFalse v l = true := by
  cases v <;> cases hs : litSign l <;>
    simp_all [litValTrue, litValFalse, hs]

/-! ### C3 support: list bookkeeping -/

lemma nbCrefs_append (xs ys : List Watch) :
    nbCrefs (xs ++ ys) = nbCrefs xs ++ nbCrefs ys := by
  simp [nbCrefs, List.filter_append]

lemma nbCrefs_perm {xs ys : List Watch} (h : List.Perm xs ys) :
    List.Perm (nbCrefs xs) (nbCrefs ys) :=
  (h.filter _).map _

lemma nbCrefs_sublist {xs ys : List Watch} (h : List.Sublist xs ys) :
    List.Sublist (nbCrefs xs) (nbCrefs ys) :=
  (h.filter _).map _

lemma cref_mem_nbCrefs {w : Watch} {ws : List Watch}
    (hm : w ∈ ws) (hb : is_binary_watch w = false) : w.cref ∈ nbCrefs ws := by
  unfold nbCrefs
  exact List.mem_map_of_mem _ (List.mem_filter.mpr ⟨hm, by simp [hb]⟩)

/-- Moving the head watch across to the kept side preserves
distinctness of the watched clause references. -/
lemma nodup_shift {w : Watch} {rest kept : List Watch}
    (h : (nbCrefs (w :: (rest ++ kept))).Nodup) :
    (nbCrefs (rest ++ w :: kept)).Nodup :=
  ((nbCrefs_perm List.perm_middle).nodup_iff).mpr h

/-- Replacing the head watch by one with the same `cref` does not
change the reference list. -/
lemma nbCrefs_cons_congr {w w' : Watch} (h : w.cref = w'.cref) (L : List Watch) :
    nbCrefs (w :: L) = nbCrefs (w' :: L) := by
  have hb : is_binary_watch w = is_binary_watch w' := by
    simp [is_binary_watch, h]
  cases hw : is_binary_watch w with
  | false => simp [nbCrefs, List.filter, hw, hb.symm.trans hw, h]
  | true => simp [nbCrefs, List.filter, hw, hb.symm.trans hw]

lemma nodup_of_cons_nbCrefs {w : Watch} {L : List Watch}
    (h : (nbCrefs (w :: L)).Nodup) : (nbCrefs L).Nodup :=
  (nbCrefs_sublist (List.sublist_cons_self w L)).nodup h

lemma cref_not_mem_of_cons {w : Watch} {L : List Watch}
    (h : (nbCrefs (w :: L)).Nodup) (hb : is_binary_watch w = false) :
    w.cref ∉ nbCrefs L := by
  have : nbCrefs (w :: L) = w.cref :: nbCrefs L := by
    simp [nbCrefs, List.filter, hb]
  rw [this] at h
  exact (List.nodup_cons.mp h).1

/-- Transposing a set element with a fresh head is a permutation. -/
lemma perm_set_cons (t : List Lit) (j x : Nat) (h : j < t.length) :
    List.Perm ((t.getD j 0) :: t.set j x) (x :: t) := by
  have hsplit : t = t.take j ++ t.getD j 0 :: t.drop (j+1) := by
    rw [List.getD_eq_getElem _ _ h]
    conv_lhs => rw [← List.take_append_drop j t, List.drop_eq_getElem_cons h]
  have hset : t.set j x = t.take j ++ x :: t.drop (j+1) := by
    rw [List.set_eq_take_append_cons_drop, if_pos h]
  rw [hset]
  conv_rhs => rw [hsplit]
  exact ((List.perm_middle.cons _).trans (List.Perm.swap x _ _)).trans
    (List.perm_middle.symm.cons x)

/-! ### C3 support: arena updates -/

/-- Looking up after an in-place size-preserving update: the updated
offset sees the mapped record, every other offset is untouched. -/
lemma arenaFindAux_setAux (f : ClauseRec → ClauseRec)
    (hf : ∀ r, clauseWords (f r) = clauseWords r) :
    ∀ (items : List ClauseRec) (off c x : Nat),
      arenaFindAux (arenaSetAux items off c f) off x =
        if x = c then (arenaFindAux items off c).map f
        else arenaFindAux items off x := by
  intro items
  induction items with
  | nil =>
    intro off c x
    by_cases hx : x = c <;> simp [arenaSetAux, arenaFindAux, hx]
  | cons r rest ih =>
    intro off c x
    rw [arenaSetAux]
    by_cases hoc : off = c
    · rw [if_pos hoc]
      by_cases hx : x = c
      · rw [if_pos hx, arenaFindAux, if_pos (hoc.trans hx.symm),
          arenaFindAux, if_pos hoc]
        rfl
      · rw [if_neg hx, arenaFindAux, arenaFindAux,
          if_neg (fun h => hx (h.symm.trans hoc)),
          if_neg (fun h => hx (h.symm.trans hoc)), hf]
    · rw [if_neg hoc]
      by_cases hx : x = c
      · rw [if_pos hx, arenaFindAux, if_neg (fun h => hoc (h.trans hx)),
          arenaFindAux, if_neg hoc, ih, if_pos hx]
      · rw [if_neg hx, arenaFindAux, arenaFindAux]
        by_cases hox : off = x
        · rw [if_pos hox, if_pos hox]
        · rw [if_neg hox, if_neg hox, ih, if_neg hx]

/-- `arenaGet` after `arenaSet` (size-preserving update). -/
lemma arenaGet_arenaSet (a : Arena) (c x : CRef) (f : ClauseRec → ClauseRec)
    (hf : ∀ r, clauseWords (f r) = clauseWords r) :
    arenaGet (arenaSet a c f) x =
      if x = c then (arenaGet a c).map f else arenaGet a x :=
  arenaFindAux_setAux f hf a.items 1 c x

/-! ### C3 support: the replacement scan -/

lemma scanNewWatch_some (s : Solver) :
    ∀ (li : List Lit) (k0 k : Nat), scanNewWatch s li k0 = some k →
      ∃ j, j < li.length ∧ k = k0 + j ∧ notFalseIn s (li.getD j 0) = true := by
  intro li
  induction li with
  | nil => intro k0 k h; simp [scanNewWatch] at h
  | cons l rest ih =>
    intro k0 k h
    rw [scanNewWatch] at h
    by_cases hl : notFalseIn s l = true
    · rw [if_pos hl] at h
      obtain rfl : k0 = k := by simpa using h
      exact ⟨0, by simp, by simp, by simpa using hl⟩
    · rw [if_neg hl] at h
      obtain ⟨j, hj, hk, hnf⟩ := ih (k0 + 1) k h
      exact ⟨j + 1, by simpa using hj, by omega, by simpa using hnf⟩

lemma scanNewWatch_none (s : Solver) :
    ∀ (li : List Lit) (k0 : Nat), scanNewWatch s li k0 = none →
      ∀ x ∈ li, notFalseIn s x = false := by
  intro li
  induction li with
  | nil => intro k0 _ x hx; simp at hx
  | cons l rest ih =>
    intro k0 h x hx
    rw [scanNewWatch] at h
    by_cases hl : notFalseIn s l = true
    · rw [if_pos hl] at h; exact absurd h (by simp)
    · rw [if_neg hl] at h
      rcases List.mem_cons.mp hx with hx | hx
      · subst hx; simpa using hl
      · exact ih (k0 + 1) h x hx

/-! ### C3 support: frame lemmas for the walk's steps -/

lemma propAssign_arena (s : Solver) (q : Lit) (c : CRef) :
    (propAssign s q c).arena = s.arena := rfl

lemma propAssign_watches (s : Solver) (q : Lit) (c : CRef) :
    (propAssign s q c).watches = s.watches := rfl

lemma propAssign_qhead (s : Solver) (q : Lit) (c : CRef) :
    (propAssign s q c).qhead = s.qhead := rfl

lemma propAssign_trail (s : Solver) (q : Lit) (c : CRef) :
    (propAssign s q c).trail = s.trail ++ [⟨q, s.decision_level⟩] := rfl

lemma propAssign_vars_ne (s : Solver) (q : Lit) (c : CRef) (u : Var)
    (h : u ≠ litVar q) : (propAssign s q c).vars u = s.vars u := by
  simp [propAssign, updVar, h]

lemma propAssign_preserves_true (s : Solver) (q x : Lit) (c : CRef)
    (hu : (s.vars (litVar q)).value = Lbool.UNDEF)
    (h : litValTrue ((s.vars (litVar x)).value) x = true) :
    litValTrue (((propAssign s q c).vars (litVar x)).value) x = true := by
  by_cases hx : litVar x = litVar q
  · rw [hx, hu, litValTrue_undef] at h
    exact absurd h (by simp)
  · rw [propAssign_vars_ne s q c _ hx]
    exact h

lemma propAssign_trailTrue (s : Solver) (q : Lit) (c : CRef)
    (h : TrailTrue s) (hu : (s.vars (litVar q)).value = Lbool.UNDEF) :
    TrailTrue (propAssign s q c) := by
  intro e he
  rw [propAssign_trail] at he
  rcases List.mem_append.mp he with he | he
  · exact propAssign_preserves_true s q e.lit c hu (h e he)
  · have : e = ⟨q, s.decision_level⟩ := by simpa using he
    subst this
    show litValTrue (((propAssign s q c).vars (litVar q)).value) q = true
    simp only [propAssign, updVar]
    simp [litValTrue]

lemma bumpSkipped_frame (s : Solver) :
    (bumpSkipped s).vars = s.vars ∧ (bumpSkipped s).trail = s.trail ∧
    (bumpSkipped s).watches = s.watches ∧ (bumpSkipped s).arena = s.arena ∧
    (bumpSkipped s).qhead = s.qhead :=
  ⟨rfl, rfl, rfl, rfl, rfl⟩

lemma swapState_vars (s : Solver) (c : CRef) (np : Lit) :
    (swapState s c np).vars = s.vars := by
  unfold swapState; split <;> rfl

lemma swapState_trail (s : Solver) (c : CRef) (np : Lit) :
    (swapState s c np).trail = s.trail := by
  unfold swapState; split <;> rfl

lemma swapState_watches (s : Solver) (c : CRef) (np : Lit) :
    (swapState s c np).watches = s.watches := by
  unfold swapState; split <;> rfl

lemma swapState_qhead (s : Solver) (c : CRef) (np : Lit) :
    (swapState s c np).qhead = s.qhead := by
  unfold swapState; split <;> rfl

lemma moveWatch_vars (s : Solver) (c : CRef) (k : Nat) (np first : Lit) :
    (moveWatch s c k np first).vars = s.vars := rfl

lemma moveWatch_trail (s : Solver) (c : CRef) (k : Nat) (np first : Lit) :
    (moveWatch s c k np first).trail = s.trail := rfl

lemma moveWatch_qhead (s : Solver) (c : CRef) (k : Nat) (np first : Lit) :
    (moveWatch s c k np first).qhead = s.qhead := rfl

lemma moveWatch_arena (s : Solver) (c : CRef) (k : Nat) (np first : Lit) :
    (moveWatch s c k np first).arena =
      arenaSet s.arena c (fun r =>
        { r with lits := (r.lits.set 1 (r.lits.getD k 0)).set k np }) := rfl

lemma moveWatch_watches (s : Solver) (c : CRef) (k : Nat) (np first : Lit) :
    (moveWatch s c k np first).watches =
      updWatch s.watches ((clauseLitsAt s.arena c).getD k 0)
        (s.watches ((clauseLitsAt s.arena c).getD k 0) ++ [⟨c, first⟩]) := rfl

lemma TrailTrue_congr {s s' : Solver} (h1 : s'.trail = s.trail)
    (h2 : s'.vars = s.vars) (h : TrailTrue s) : TrailTrue s' := by
  intro e he
  rw [h1] at he
  rw [h2]
  exact h e he

lemma WatchedAt_frame {a a' : Arena} {c : CRef} {l : Lit} {w : Watch}
    (hframe : ∀ x, x ≠ c → arenaGet a' x = arenaGet a x)
    (h : WatchedAt a l w) (hne : w.cref ≠ c) : WatchedAt a' l w := by
  obtain ⟨cl, hget, h2, hnd, hlt, hor⟩ := h
  exact ⟨cl, (hframe _ hne).trans hget, h2, hnd, hlt, hor⟩

/-- A list of length at least two starts with two elements. -/
lemma two_split {l : List Lit} (h : 2 ≤ l.length) : ∃ a b t, l = a :: b :: t := by
  cases l with
  | nil => simp at h
  | cons a l' =>
    cases l' with
    | nil => simp at h
    | cons b t => exact ⟨a, b, t, rfl⟩

/-- A clause reference strictly below `BINARY_CONFLICT` is not the
binary marker. -/
lemma not_binary_of_lt {c : CRef} (h : c < BINARY_CONFLICT) (b : Lit) :
    is_binary_watch ⟨c, b⟩ = false := by
  show (c == INVALID_CLAUSE) = false
  rw [beq_eq_false_iff_ne]
  intro he
  rw [INVALID_CLAUSE] at he
  rw [BINARY_CONFLICT] at h
  subst he
  norm_num at h

/-- Characterisation of the conditional swap: afterwards the clause at
`c` reads `a :: np :: t`, a permutation of the original literals whose
first two literals it preserves as a pair; every other offset is
untouched. -/
lemma swapState_spec (s : Solver) (c : CRef) (np : Lit) (cl : ClauseRec)
    (hget : arenaGet s.arena c = some cl) (h2 : 2 ≤ cl.lits.length)
    (hor : cl.lits.getD 0 0 = np ∨ cl.lits.getD 1 0 = np) :
    ∃ a t, arenaGet (swapState s c np).arena c = some { cl with lits := a :: np :: t } ∧
      List.Perm (a :: np :: t) cl.lits ∧
      ((cl.lits.getD 0 0 = np ∧ cl.lits.getD 1 0 = a) ∨
       (cl.lits.getD 0 0 = a ∧ cl.lits.getD 1 0 = np)) ∧
      (∀ x, x ≠ c → arenaGet (swapState s c np).arena x = arenaGet s.arena x) := by
  obtain ⟨a0, b0, t, hl⟩ := two_split h2
  have hlits : clauseLitsAt s.arena c = cl.lits := by
    simp [clauseLitsAt, hget]
  have hf : ∀ r : ClauseRec,
      clauseWords { r with lits := (r.lits.set 0 (r.lits.getD 1 0)).set 1 np }
        = clauseWords r := by
    intro r; simp [clauseWords]
  by_cases hcond : (clauseLitsAt s.arena c).getD 0 0 = np
  · have ha0 : a0 = np := by
      rw [hlits, hl] at hcond; simpa using hcond
    have harena : (swapState s c np).arena =
        arenaSet s.arena c (fun r =>
          { r with lits := (r.lits.set 0 (r.lits.getD 1 0)).set 1 np }) := by
      rw [swapState, if_pos hcond]
    refine ⟨b0, t, ?_, ?_, ?_, ?_⟩
    · rw [harena, arenaGet_arenaSet _ _ _ _ hf, if_pos rfl, hget]
      simp [hl]
    · rw [hl, ha0]
      exact List.Perm.swap np b0 t
    · left
      constructor
      · rw [← hlits]; exact hcond
      · rw [hl]; rfl
    · intro x hx
      rw [harena, arenaGet_arenaSet _ _ _ _ hf, if_neg hx]
  · have hb0 : b0 = np := by
      rw [hlits] at hcond
      rcases hor with h | h
      · exact absurd h hcond
      · rw [hl] at h; simpa using h
    have harena : swapState s c np = s := by
      rw [swapState, if_neg hcond]
    refine ⟨a0, t, ?_, ?_, ?_, ?_⟩
    · rw [harena, hget]
      congr 1
      cases cl
      simp_all
    · rw [hl, hb0]
    · right
      constructor
      · rw [hl]; rfl
      · rw [hl, hb0]; rfl
    · intro x _
      rw [harena]

/-- Shape of the literal rewrite performed when a replacement watch at
position `2+j` is found. -/
lemma moveWatch_lits_shape (a np : Lit) (t : List Lit) (j : Nat) :
    (((a :: np :: t).set 1 ((a :: np :: t).getD (2+j) 0)).set (2+j) np)
      = a :: t.getD j 0 :: t.set j np := by
  have h2j : 2 + j = j + 1 + 1 := by omega
  rw [h2j]
  simp [List.getD_cons_succ]

/-- Transfer of the mid-walk invariant across an arena rewrite of one
clause that permutes its literals, provided the rewrite preserves the
watched (first two) positions for every list other than the one being
compacted. -/
lemma MidWF_swap_transfer (s s1 : Solver) (np : Lit) (c : CRef) (cl cl1 : ClauseRec)
    (hvars : s1.vars = s.vars) (htrail : s1.trail = s.trail)
    (hwatches : s1.watches = s.watches)
    (hget : arenaGet s.arena c = some cl)
    (hget1 : arenaGet s1.arena c = some cl1)
    (hperm : List.Perm cl1.lits cl.lits)
    (hpair : ∀ l, (cl.lits.getD 0 0 = l ∨ cl.lits.getD 1 0 = l) → l ≠ np →
        (cl1.lits.getD 0 0 = l ∨ cl1.lits.getD 1 0 = l))
    (hframe : ∀ x, x ≠ c → arenaGet s1.arena x = arenaGet s.arena x)
    (hmid : MidWF s np) : MidWF s1 np := by
  refine ⟨TrailTrue_congr htrail hvars hmid.1, ?_, ?_⟩
  · intro l hl w' hw' hb'
    rw [hwatches] at hw'
    obtain ⟨cl', hget', h2', hnd', hlt', hor'⟩ := hmid.2.1 l hl w' hw' hb'
    by_cases hc : w'.cref = c
    · rw [hc, hget] at hget'
      obtain rfl : cl' = cl := (Option.some.inj hget').symm
      exact ⟨cl1, by rw [hc]; exact hget1, by rw [hperm.length_eq]; exact h2',
        hperm.nodup_iff.mpr hnd', hlt', hpair l hor' hl⟩
    · exact ⟨cl', (hframe _ hc).trans hget', h2', hnd', hlt', hor'⟩
  · intro l hl
    rw [hwatches]
    exact hmid.2.2 l hl

set_option maxHeartbeats 2000000 in
/-- Main invariant lemma for the inner walk of `solver_propagate`: from
a well-formed mid-walk state, a `none` exit restores the global
invariant without touching `qhead` (and the trail only grows), and a
`some r` exit really is a conflict (`ConflictRet`). -/
lemma processWatches_spec (p : Lit) :
    ∀ (rest kept : List Watch) (s : Solver),
      MidWF s (litNeg p) →
      litValTrue ((s.vars (litVar p)).value) p = true →
      (∀ w ∈ rest, is_binary_watch w = false → WatchedAt s.arena (litNeg p) w) →
      (∀ w ∈ kept, is_binary_watch w = false → WatchedAt s.arena (litNeg p) w) →
      (nbCrefs (rest ++ kept)).Nodup →
      ((processWatches p s rest kept).1 = none →
          PropInv (processWatches p s rest kept).2 ∧
          (processWatches p s rest kept).2.qhead = s.qhead ∧
          s.trail.length ≤ (processWatches p s rest kept).2.trail.length) ∧
      (∀ r, (processWatches p s rest kept).1 = some r →
          ConflictRet r (processWatches p s rest kept).2) := by
  intro rest
  induction rest with
  | nil =>
    intro kept s hmid hp hrest hkept hnd
    have hE : processWatches p s [] kept =
        (none, { s with watches := updWatch s.watches (litNeg p) kept.reverse }) := rfl
    rw [hE]
    constructor
    · intro _
      refine ⟨⟨hmid.1, ?_, ?_⟩, rfl, le_refl _⟩
      · intro l w hw hb
        by_cases hl : l = litNeg p
        · subst hl
          simp only [updWatch, if_pos rfl] at hw
          exact hkept w (List.mem_reverse.mp hw) hb
        · simp only [updWatch, if_neg hl] at hw
          exact hmid.2.1 l hl w hw hb
      · intro l
        by_cases hl : l = litNeg p
        · subst hl
          simp only [updWatch, if_pos rfl]
          exact (nbCrefs_perm kept.reverse_perm).nodup_iff.mpr hnd
        · simp only [updWatch, if_neg hl]
          exact hmid.2.2 l hl
    · intro r hr
      exact Option.noConfusion hr
  | cons w rest ih =>
    intro kept s hmid hp hrest hkept hnd
    by_cases hbin : is_binary_watch w = true
    · -- binary watch
      by_cases hundef : (s.vars (litVar w.blocker)).value = Lbool.UNDEF
      · -- binary propagation
        have hE : processWatches p s (w :: rest) kept =
            processWatches p (propAssign s w.blocker INVALID_CLAUSE) rest (w :: kept) := by
          conv_lhs => rw [processWatches]
          rw [if_pos hbin, if_pos hundef]
        rw [hE]
        have hmid1 : MidWF (propAssign s w.blocker INVALID_CLAUSE) (litNeg p) := by
          refine ⟨propAssign_trailTrue s w.blocker INVALID_CLAUSE hmid.1 hundef, ?_, ?_⟩
          · intro l hl w' hw' hb'
            rw [propAssign_watches] at hw'
            exact hmid.2.1 l hl w' hw' hb'
          · intro l hl
            rw [propAssign_watches]
            exact hmid.2.2 l hl
        have hrest1 : ∀ w' ∈ rest, is_binary_watch w' = false →
            WatchedAt (propAssign s w.blocker INVALID_CLAUSE).arena (litNeg p) w' :=
          fun w' hw' hb' => hrest w' (List.mem_cons_of_mem _ hw') hb'
        have hkept1 : ∀ w' ∈ w :: kept, is_binary_watch w' = false →
            WatchedAt (propAssign s w.blocker INVALID_CLAUSE).arena (litNeg p) w' := by
          intro w' hw' hb'
          rcases List.mem_cons.mp hw' with he | hk
          · subst he
            exact absurd hbin (by rw [hb']; simp)
          · exact hkept w' hk hb'
        obtain ⟨hnone, hsome⟩ := ih (w :: kept) (propAssign s w.blocker INVALID_CLAUSE)
          hmid1 (propAssign_preserves_true s w.blocker p INVALID_CLAUSE hundef hp)
          hrest1 hkept1 (nodup_shift hnd)
        constructor
        · intro h0
          obtain ⟨hinv, hq, hlen⟩ := hnone h0
          refine ⟨hinv, hq.trans (propAssign_qhead s w.blocker INVALID_CLAUSE), ?_⟩
          refine le_trans ?_ hlen
          rw [propAssign_trail]
          simp
        · exact hsome
      · by_cases hfalse : litValFalse ((s.vars (litVar w.blocker)).value) w.blocker = true
        · -- binary conflict
          have hE : processWatches p s (w :: rest) kept =
              (some BINARY_CONFLICT,
               { s with watches := updWatch s.watches (litNeg p) (kept.reverse ++ w :: rest) }) := by
            conv_lhs => rw [processWatches]
            rw [if_pos hbin, if_neg hundef, if_pos hfalse]
          rw [hE]
          constructor
          · intro h0
            exact Option.noConfusion h0
          · intro r hr
            obtain rfl : BINARY_CONFLICT = r := Option.some.inj hr
            left
            refine ⟨rfl, litNeg p, w.blocker, ?_, ?_, hfalse⟩
            · have hwc : w.cref = INVALID_CLAUSE := by
                have := hbin
                simp only [is_binary_watch, beq_iff_eq] at this
                exact this
              have hwe : (⟨INVALID_CLAUSE, w.blocker⟩ : Watch) = w := by
                cases w
                simp_all
              show (⟨INVALID_CLAUSE, w.blocker⟩ : Watch) ∈
                updWatch s.watches (litNeg p) (kept.reverse ++ w :: rest) (litNeg p)
              simp only [updWatch, if_pos rfl]
              rw [hwe]
              exact List.mem_append_right _ (List.mem_cons_self w rest)
            · show litValFalse ((s.vars (litVar (litNeg p))).value) (litNeg p) = true
              rw [litVar_litNeg]
              exact litValFalse_litNeg hp
        · -- binary, blocker already true: keep
          have hE : processWatches p s (w :: rest) kept =
              processWatches p s rest (w :: kept) := by
            conv_lhs => rw [processWatches]
            rw [if_pos hbin, if_neg hundef, if_neg hfalse]
          rw [hE]
          have hkept1 : ∀ w' ∈ w :: kept, is_binary_watch w' = false →
              WatchedAt s.arena (litNeg p) w' := by
            intro w' hw' hb'
            rcases List.mem_cons.mp hw' with he | hk
            · subst he
              exact absurd hbin (by rw [hb']; simp)
            · exact hkept w' hk hb'
          obtain ⟨hnone, hsome⟩ := ih (w :: kept) s hmid hp
            (fun w' hw' hb' => hrest w' (List.mem_cons_of_mem _ hw') hb')
            hkept1 (nodup_shift hnd)
          exact ⟨hnone, hsome⟩
    · -- non-binary watch
      have hbinF : is_binary_watch w = false := Bool.eq_false_iff.mpr hbin
      by_cases htrue : litValTrue ((s.vars (litVar w.blocker)).value) w.blocker = true
      · -- blocker true: skip clause
        have hE : processWatches p s (w :: rest) kept =
            processWatches p (bumpSkipped s) rest (w :: kept) := by
          conv_lhs => rw [processWatches]
          rw [if_neg hbin, if_pos htrue]
        rw [hE]
        have hkept1 : ∀ w' ∈ w :: kept, is_binary_watch w' = false →
            WatchedAt (bumpSkipped s).arena (litNeg p) w' := by
          intro w' hw' hb'
          rcases List.mem_cons.mp hw' with he | hk
          · subst he
            exact hrest w' (List.mem_cons_self _ _) hb'
          · exact hkept w' hk hb'
        obtain ⟨hnone, hsome⟩ := ih (w :: kept) (bumpSkipped s) hmid hp
          (fun w' hw' hb' => hrest w' (List.mem_cons_of_mem _ hw') hb')
          hkept1 (nodup_shift hnd)
        exact ⟨hnone, hsome⟩
      · -- examine the clause
        obtain ⟨cl, hget, h2, hndl, hlt, horr⟩ :=
          hrest w (List.mem_cons_self w rest) hbinF
        obtain ⟨a, t, hget1, hperm, hft, hframe⟩ :=
          swapState_spec s w.cref (litNeg p) cl hget h2 horr
        have hfirst : firstLit (swapState s w.cref (litNeg p)) w.cref = a := by
          simp [firstLit, clauseLitsAt, hget1]
        have hpairset : ∀ l, (cl.lits.getD 0 0 = l ∨ cl.lits.getD 1 0 = l) →
            l = litNeg p ∨ l = a := by
          intro l h
          rcases hft with ⟨h0, h1⟩ | ⟨h0, h1⟩ <;> rcases h with h | h
          · exact Or.inl (h ▸ h0)
          · exact Or.inr (h ▸ h1)
          · exact Or.inr (h ▸ h0)
          · exact Or.inl (h ▸ h1)
        have hlits1 : clauseLitsAt (swapState s w.cref (litNeg p)).arena w.cref
            = a :: litNeg p :: t := by
          simp [clauseLitsAt, hget1]
        have hmid1 : MidWF (swapState s w.cref (litNeg p)) (litNeg p) := by
          refine MidWF_swap_transfer s _ (litNeg p) w.cref cl
            { cl with lits := a :: litNeg p :: t }
            (swapState_vars s w.cref (litNeg p)) (swapState_trail s w.cref (litNeg p))
            (swapState_watches s w.cref (litNeg p)) hget hget1 hperm ?_ hframe hmid
          intro l h hl
          rcases hpairset l h with h' | h'
          · exact absurd h' hl
          · exact Or.inl h'.symm
        have hp1 : litValTrue
            (((swapState s w.cref (litNeg p)).vars (litVar p)).value) p = true := by
          rw [swapState_vars]
          exact hp
        have hnotin : w.cref ∉ nbCrefs (rest ++ kept) := cref_not_mem_of_cons hnd hbinF
        have hrest1 : ∀ w' ∈ rest, is_binary_watch w' = false →
            WatchedAt (swapState s w.cref (litNeg p)).arena (litNeg p) w' := by
          intro w' hw' hb'
          have hc : w'.cref ≠ w.cref := by
            intro he
            exact hnotin (he ▸ cref_mem_nbCrefs (List.mem_append_left _ hw') hb')
          exact WatchedAt_frame hframe (hrest w' (List.mem_cons_of_mem _ hw') hb') hc
        have hkeptc : ∀ w' ∈ kept, is_binary_watch w' = false →
            WatchedAt (swapState s w.cref (litNeg p)).arena (litNeg p) w' := by
          intro w' hw' hb'
          have hc : w'.cref ≠ w.cref := by
            intro he
            exact hnotin (he ▸ cref_mem_nbCrefs (List.mem_append_right _ hw') hb')
          exact WatchedAt_frame hframe (hkept w' hw' hb') hc
        have hWAnew : WatchedAt (swapState s w.cref (litNeg p)).arena (litNeg p)
            ⟨w.cref, a⟩ :=
          ⟨{ cl with lits := a :: litNeg p :: t }, hget1,
            by rw [hperm.length_eq]; exact h2,
            hperm.nodup_iff.mpr hndl, hlt, Or.inr rfl⟩
        by_cases hfv : litValTrue
            (((swapState s w.cref (litNeg p)).vars
              (litVar (firstLit (swapState s w.cref (litNeg p)) w.cref))).value)
            (firstLit (swapState s w.cref (litNeg p)) w.cref) = true
        · -- first literal true: keep with refreshed blocker
          have hE : processWatches p s (w :: rest) kept =
              processWatches p (swapState s w.cref (litNeg p)) rest
                (⟨w.cref, firstLit (swapState s w.cref (litNeg p)) w.cref⟩ :: kept) := by
            conv_lhs => rw [processWatches]
            rw [if_neg hbin, if_neg htrue, if_pos hfv]
          rw [hfirst] at hE
          rw [hE]
          have hkept1 : ∀ w' ∈ (⟨w.cref, a⟩ : Watch) :: kept,
              is_binary_watch w' = false →
              WatchedAt (swapState s w.cref (litNeg p)).arena (litNeg p) w' := by
            intro w' hw' hb'
            rcases List.mem_cons.mp hw' with he | hk
            · subst he
              exact hWAnew
            · exact hkeptc w' hk hb'
          have hnd1 : (nbCrefs (rest ++ (⟨w.cref, a⟩ : Watch) :: kept)).Nodup := by
            apply nodup_shift
            rw [nbCrefs_cons_congr (show (⟨w.cref, a⟩ : Watch).cref = w.cref from rfl)
              (rest ++ kept)]
            exact hnd
          obtain ⟨hnone, hsome⟩ := ih ((⟨w.cref, a⟩ : Watch) :: kept)
            (swapState s w.cref (litNeg p)) hmid1 hp1 hrest1 hkept1 hnd1
          constructor
          · intro h0
            obtain ⟨hinv, hq, hlen⟩ := hnone h0
            refine ⟨hinv, hq.trans (swapState_qhead s w.cref (litNeg p)), ?_⟩
            rw [← swapState_trail s w.cref (litNeg p)]
            exact hlen
          · exact hsome
        · -- first literal not (yet) true: look for a replacement watch
          cases hscan : scanNewWatch (swapState s w.cref (litNeg p))
              ((clauseLitsAt (swapState s w.cref (litNeg p)).arena w.cref).drop 2) 2 with
          | some k =>
            -- found one: move the watch
            have hE : processWatches p s (w :: rest) kept =
                processWatches p
                  (moveWatch (swapState s w.cref (litNeg p)) w.cref k (litNeg p)
                    (firstLit (swapState s w.cref (litNeg p)) w.cref))
                  rest kept := by
              conv_lhs => rw [processWatches]
              rw [if_neg hbin, if_neg htrue, if_neg hfv, hscan]
            rw [hfirst] at hE
            rw [hE]
            have hscan' : scanNewWatch (swapState s w.cref (litNeg p)) t 2 = some k := by
              rw [hlits1] at hscan
              simpa using hscan
            obtain ⟨j, hj, hk, hnf⟩ :=
              scanNewWatch_some (swapState s w.cref (litNeg p)) t 2 k hscan'
            have hf2 : ∀ r : ClauseRec, clauseWords
                { r with lits := (r.lits.set 1 (r.lits.getD k 0)).set k (litNeg p) }
                  = clauseWords r := by
              intro r; simp [clauseWords]
            have hget2 : arenaGet (moveWatch (swapState s w.cref (litNeg p)) w.cref k
                (litNeg p) a).arena w.cref =
                some { cl with lits := a :: t.getD j 0 :: t.set j (litNeg p) } := by
              rw [moveWatch_arena, arenaGet_arenaSet _ _ _ _ hf2, if_pos rfl, hget1, hk]
              show some (ClauseRec.mk (((a :: litNeg p :: t).set 1
                  ((a :: litNeg p :: t).getD (2+j) 0)).set (2+j) (litNeg p))
                  cl.learned cl.deleted cl.lbd cl.activity)
                = some (ClauseRec.mk (a :: t.getD j 0 :: t.set j (litNeg p))
                  cl.learned cl.deleted cl.lbd cl.activity)
              rw [moveWatch_lits_shape]
            have hframe2 : ∀ x, x ≠ w.cref →
                arenaGet (moveWatch (swapState s w.cref (litNeg p)) w.cref k
                  (litNeg p) a).arena x =
                arenaGet (swapState s w.cref (litNeg p)).arena x := by
              intro x hx
              rw [moveWatch_arena, arenaGet_arenaSet _ _ _ _ hf2, if_neg hx]
            have hframe12 : ∀ x, x ≠ w.cref →
                arenaGet (moveWatch (swapState s w.cref (litNeg p)) w.cref k
                  (litNeg p) a).arena x = arenaGet s.arena x :=
              fun x hx => (hframe2 x hx).trans (hframe x hx)
            have hperm2 : List.Perm (a :: t.getD j 0 :: t.set j (litNeg p))
                (a :: litNeg p :: t) :=
              (perm_set_cons t j (litNeg p) hj).cons a
            have htot : List.Perm (a :: t.getD j 0 :: t.set j (litNeg p)) cl.lits :=
              hperm2.trans hperm
            have hnd1' : (a :: litNeg p :: t).Nodup := hperm.nodup_iff.mpr hndl
            have hnp_t : litNeg p ∉ t := by
              have h' := hnd1'
              simp only [List.nodup_cons] at h'
              exact h'.2.1
            have ha_t : a ∉ t := by
              have h' := hnd1'
              simp only [List.nodup_cons] at h'
              exact fun h => h'.1 (List.mem_cons_of_mem _ h)
            have htj_mem : t.getD j 0 ∈ t := by
              rw [List.getD_eq_getElem _ _ hj]
              exact List.getElem_mem hj
            have htj_ne_np : t.getD j 0 ≠ litNeg p := fun h => hnp_t (h ▸ htj_mem)
            have htj_ne_a : t.getD j 0 ≠ a := fun h => ha_t (h ▸ htj_mem)
            have hlit_w : (clauseLitsAt (swapState s w.cref (litNeg p)).arena
                w.cref).getD k 0 = t.getD j 0 := by
              rw [hlits1, hk]
              have h2j : 2 + j = j + 1 + 1 := by omega
              rw [h2j]
              simp [List.getD_cons_succ]
            have hwatches2 : (moveWatch (swapState s w.cref (litNeg p)) w.cref k
                (litNeg p) a).watches =
                updWatch s.watches (t.getD j 0)
                  (s.watches (t.getD j 0) ++ [⟨w.cref, a⟩]) := by
              rw [moveWatch_watches, hlit_w, swapState_watches]
            -- the new watch literal is not one of the clause's first two,
            -- so no watch on this clause can already sit on its list
            have hnew_not_watch : ∀ w' ∈ s.watches (t.getD j 0),
                is_binary_watch w' = false → w'.cref ≠ w.cref := by
              intro w' hw' hb' he
              have hWA := hmid.2.1 (t.getD j 0) htj_ne_np w' hw' hb'
              obtain ⟨cl'', hget'', _, _, _, hor''⟩ := hWA
              rw [he, hget] at hget''
              obtain rfl : cl'' = cl := (Option.some.inj hget'').symm
              rcases hpairset _ hor'' with h' | h'
              · exact htj_ne_np h'
              · exact htj_ne_a h'
            have hmid2 : MidWF (moveWatch (swapState s w.cref (litNeg p)) w.cref k
                (litNeg p) a) (litNeg p) := by
              refine ⟨?_, ?_, ?_⟩
              · refine TrailTrue_congr ?_ ?_ hmid.1
                · rw [moveWatch_trail, swapState_trail]
                · rw [moveWatch_vars, swapState_vars]
              · intro l hl w' hw' hb'
                rw [hwatches2] at hw'
                simp only [updWatch] at hw'
                by_cases hll : l = t.getD j 0
                · rw [if_pos hll] at hw'
                  rcases List.mem_append.mp hw' with hold | hnew2
                  · have hWA := hmid.2.1 l hl w' (hll ▸ hold) hb'
                    have hcne : w'.cref ≠ w.cref :=
                      hnew_not_watch w' (hll ▸ hold) hb'
                    exact WatchedAt_frame hframe12 hWA hcne
                  · obtain rfl : w' = ⟨w.cref, a⟩ := by simpa using hnew2
                    refine ⟨{ cl with lits := a :: t.getD j 0 :: t.set j (litNeg p) },
                      hget2, ?_, htot.nodup_iff.mpr hndl, hlt, Or.inr hll.symm⟩
                    show 2 ≤ (a :: t.getD j 0 :: t.set j (litNeg p)).length
                    rw [htot.length_eq]
                    exact h2
                · rw [if_neg hll] at hw'
                  have hWA := hmid.2.1 l hl w' hw' hb'
                  by_cases hcw : w'.cref = w.cref
                  · obtain ⟨cl'', hget'', _, _, _, hor''⟩ := hWA
                    rw [hcw, hget] at hget''
                    have he'' : cl'' = cl := (Option.some.inj hget'').symm
                    rw [he''] at hor''
                    have hla : l = a := by
                      rcases hpairset _ hor'' with h' | h'
                      · exact absurd h' hl
                      · exact h'
                    refine ⟨{ cl with lits := a :: t.getD j 0 :: t.set j (litNeg p) },
                      by rw [hcw]; exact hget2, ?_,
                      htot.nodup_iff.mpr hndl, by rw [hcw]; exact hlt,
                      Or.inl (by rw [hla]; rfl)⟩
                    show 2 ≤ (a :: t.getD j 0 :: t.set j (litNeg p)).length
                    rw [htot.length_eq]
                    exact h2
                  · exact WatchedAt_frame hframe12 hWA hcw
              · intro l hl
                rw [hwatches2]
                simp only [updWatch]
                by_cases hll : l = t.getD j 0
                · rw [if_pos hll]
                  rw [nbCrefs_append]
                  refine List.Nodup.append (hll ▸ hmid.2.2 l hl) ?_ ?_
                  · simp [nbCrefs, List.filter, not_binary_of_lt hlt a]
                  · intro x hx hx'
                    have : x = w.cref := by
                      simp only [nbCrefs, List.filter, not_binary_of_lt hlt a] at hx'
                      simpa using hx'
                    subst this
                    obtain ⟨w'', hmem'', hcref''⟩ : ∃ w'' ∈ (s.watches (t.getD j 0)).filter
                        (fun w0 => !is_binary_watch w0), w''.cref = w.cref := by
                      simpa [nbCrefs] using hx
                    have hmemF := List.mem_filter.mp hmem''
                    exact hnew_not_watch w'' hmemF.1
                      (by simpa using hmemF.2) hcref''
                · rw [if_neg hll]
                  exact hmid.2.2 l hl
            have hp2 : litValTrue (((moveWatch (swapState s w.cref (litNeg p)) w.cref k
                (litNeg p) a).vars (litVar p)).value) p = true := by
              rw [moveWatch_vars, swapState_vars]
              exact hp
            have hrest2 : ∀ w' ∈ rest, is_binary_watch w' = false →
                WatchedAt (moveWatch (swapState s w.cref (litNeg p)) w.cref k
                  (litNeg p) a).arena (litNeg p) w' := by
              intro w' hw' hb'
              have hc : w'.cref ≠ w.cref := by
                intro he
                exact hnotin (he ▸ cref_mem_nbCrefs (List.mem_append_left _ hw') hb')
              exact WatchedAt_frame hframe12 (hrest w' (List.mem_cons_of_mem _ hw') hb') hc
            have hkept2 : ∀ w' ∈ kept, is_binary_watch w' = false →
                WatchedAt (moveWatch (swapState s w.cref (litNeg p)) w.cref k
                  (litNeg p) a).arena (litNeg p) w' := by
              intro w' hw' hb'
              have hc : w'.cref ≠ w.cref := by
                intro he
                exact hnotin (he ▸ cref_mem_nbCrefs (List.mem_append_right _ hw') hb')
              exact WatchedAt_frame hframe12 (hkept w' hw' hb') hc
            obtain ⟨hnone, hsome⟩ := ih kept
              (moveWatch (swapState s w.cref (litNeg p)) w.cref k (litNeg p) a)
              hmid2 hp2 hrest2 hkept2 (nodup_of_cons_nbCrefs hnd)
            constructor
            · intro h0
              obtain ⟨hinv, hq, hlen⟩ := hnone h0
              refine ⟨hinv, ?_, ?_⟩
              · rw [hq, moveWatch_qhead, swapState_qhead]
              · have htr : (moveWatch (swapState s w.cref (litNeg p)) w.cref k
                    (litNeg p) a).trail = s.trail := by
                  rw [moveWatch_trail, swapState_trail]
                rw [← htr]
                exact hlen
            · exact hsome
          | none =>
            -- no replacement: unit propagation or conflict
            by_cases hfu : ((swapState s w.cref (litNeg p)).vars
                (litVar (firstLit (swapState s w.cref (litNeg p)) w.cref))).value
                  = Lbool.UNDEF
            · -- unit propagation on the first literal
              have hE : processWatches p s (w :: rest) kept =
                  processWatches p
                    (propAssign (swapState s w.cref (litNeg p))
                      (firstLit (swapState s w.cref (litNeg p)) w.cref) w.cref)
                    rest (w :: kept) := by
                conv_lhs => rw [processWatches]
                rw [if_neg hbin, if_neg htrue, if_neg hfv, hscan, if_pos hfu]
              rw [hfirst] at hE hfu
              rw [hE]
              have hmid2 : MidWF (propAssign (swapState s w.cref (litNeg p)) a w.cref)
                  (litNeg p) := by
                refine ⟨propAssign_trailTrue _ a w.cref hmid1.1 hfu, ?_, ?_⟩
                · intro l hl w' hw' hb'
                  rw [propAssign_watches] at hw'
                  exact hmid1.2.1 l hl w' hw' hb'
                · intro l hl
                  rw [propAssign_watches]
                  exact hmid1.2.2 l hl
              have hp2 : litValTrue (((propAssign (swapState s w.cref (litNeg p)) a
                  w.cref).vars (litVar p)).value) p = true :=
                propAssign_preserves_true _ a p w.cref hfu hp1
              have hkept2 : ∀ w' ∈ w :: kept, is_binary_watch w' = false →
                  WatchedAt (propAssign (swapState s w.cref (litNeg p)) a
                    w.cref).arena (litNeg p) w' := by
                intro w' hw' hb'
                rcases List.mem_cons.mp hw' with he | hk
                · rw [he]
                  show WatchedAt (swapState s w.cref (litNeg p)).arena (litNeg p) w
                  exact ⟨{ cl with lits := a :: litNeg p :: t }, hget1,
                    by rw [hperm.length_eq]; exact h2,
                    hperm.nodup_iff.mpr hndl, hlt, Or.inr rfl⟩
                · exact hkeptc w' hk hb'
              obtain ⟨hnone, hsome⟩ := ih (w :: kept)
                (propAssign (swapState s w.cref (litNeg p)) a w.cref)
                hmid2 hp2 (fun w' hw' hb' => hrest1 w' hw' hb')
                hkept2 (nodup_shift hnd)
              constructor
              · intro h0
                obtain ⟨hinv, hq, hlen⟩ := hnone h0
                refine ⟨hinv, ?_, ?_⟩
                · rw [hq, propAssign_qhead, swapState_qhead]
                · refine le_trans ?_ hlen
                  rw [propAssign_trail, swapState_trail]
                  simp
              · exact hsome
            · -- conflict on this clause
              have hE : processWatches p s (w :: rest) kept =
                  (some w.cref,
                   { swapState s w.cref (litNeg p) with watches := updWatch (swapState s w.cref (litNeg p)).watches (litNeg p) ((w :: kept).reverse ++ rest) }) := by
                conv_lhs => rw [processWatches]
                rw [if_neg hbin, if_neg htrue, if_neg hfv, hscan, if_neg hfu]
              rw [hE]
              constructor
              · intro h0
                exact Option.noConfusion h0
              · intro r hr
                obtain rfl : w.cref = r := Option.some.inj hr
                right
                refine ⟨hlt, { cl with lits := a :: litNeg p :: t }, hget1, ?_⟩
                intro l hl
                have hvars3 : ({ swapState s w.cref (litNeg p) with
                    watches := updWatch (swapState s w.cref (litNeg p)).watches
                      (litNeg p) ((w :: kept).reverse ++ rest) }).vars
                    = s.vars := swapState_vars s w.cref (litNeg p)
                rw [hvars3]
                rcases List.mem_cons.mp hl with hla | hl'
                · subst hla
                  have hnottrue : litValTrue ((s.vars (litVar l)).value) l = false := by
                    have := hfv
                    rw [hfirst] at this
                    rw [swapState_vars] at this
                    exact Bool.eq_false_iff.mpr this
                  have hne : (s.vars (litVar l)).value ≠ Lbool.UNDEF := by
                    have := hfu
                    rw [hfirst] at this
                    rw [swapState_vars] at this
                    exact this
                  exact litValFalse_of_not_true hne hnottrue
                rcases List.mem_cons.mp hl' with hlnp | hlt'
                · subst hlnp
                  rw [litVar_litNeg]
                  exact litValFalse_litNeg hp
                · have hscan' : scanNewWatch (swapState s w.cref (litNeg p)) t 2
                      = none := by
                    rw [hlits1] at hscan
                    simpa using hscan
                  have hnf := scanNewWatch_none (swapState s w.cref (litNeg p))
                    t 2 hscan' l hlt'
                  rw [notFalseIn] at hnf
                  rw [swapState_vars] at hnf
                  simpa using hnf

/-- Invariant lemma for the outer propagation loop: under the global
invariant, an `INVALID_CLAUSE` return means the queue was emptied, and
any other return is a genuine conflict. -/
lemma propagateLoop_spec :
    ∀ (fuel : Nat) (s : Solver), PropInv s → s.qhead ≤ s.trail.length →
      ∀ r s', propagateLoop fuel s = some (r, s') →
        (r = INVALID_CLAUSE → s'.qhead = s'.trail.length) ∧
        (r ≠ INVALID_CLAUSE → ConflictRet r s') := by
  intro fuel
  induction fuel with
  | zero =>
    intro s _ _ r s' h
    exact Option.noConfusion h
  | succ fuel ih =>
    intro s hinv hq r s' h
    rw [propagateLoop] at h
    by_cases hlt : s.qhead < s.trail.length
    · rw [if_pos hlt] at h
      have hmem : s.trail.getD s.qhead default ∈ s.trail := by
        rw [List.getD_eq_getElem _ _ hlt]
        exact List.getElem_mem hlt
      have hp := hinv.1 _ hmem
      obtain ⟨hnone, hsome⟩ := processWatches_spec
        ((s.trail.getD s.qhead default).lit)
        (s.watches (litNeg ((s.trail.getD s.qhead default).lit))) []
        (bumpPropStats { s with qhead := s.qhead + 1 })
        ⟨hinv.1, fun l _ w hw hb => hinv.2.1 l w hw hb, fun l _ => hinv.2.2 l⟩
        hp
        (fun w hw hb => hinv.2.1 _ w hw hb)
        (fun w hw _ => absurd hw (List.not_mem_nil w))
        (by rw [List.append_nil]; exact hinv.2.2 _)
      rcases hPW : processWatches ((s.trail.getD s.qhead default).lit)
          (bumpPropStats { s with qhead := s.qhead + 1 })
          (s.watches (litNeg ((s.trail.getD s.qhead default).lit))) []
        with ⟨o, s2⟩
      rw [hPW] at h hnone hsome
      cases o with
      | some c =>
        have h' : some (c, s2) = some (r, s') := h
        have h'' := Option.some.inj h'
        rw [Prod.mk.injEq] at h''
        obtain ⟨rfl, rfl⟩ := h''
        have hCR : ConflictRet c s2 := hsome c rfl
        refine ⟨?_, fun _ => hCR⟩
        intro hr
        rcases hCR with ⟨hbc, _⟩ | ⟨hltc, _⟩
        · exact absurd (hr ▸ hbc) (by rw [INVALID_CLAUSE, BINARY_CONFLICT]; norm_num)
        · have : INVALID_CLAUSE < BINARY_CONFLICT := hr ▸ hltc
          rw [INVALID_CLAUSE, BINARY_CONFLICT] at this
          norm_num at this
      | none =>
        have h' : propagateLoop fuel s2 = some (r, s') := h
        obtain ⟨hinv2, hq2, hlen2⟩ := hnone rfl
        have hq2' : s2.qhead = s.qhead + 1 := hq2
        have hlen2' : s.trail.length ≤ s2.trail.length := hlen2
        exact ih s2 hinv2 (by omega) r s' h'
    · rw [if_neg hlt] at h
      have h'' := Option.some.inj h
      rw [Prod.mk.injEq] at h''
      obtain ⟨rfl, rfl⟩ := h''
      exact ⟨fun _ => Nat.le_antisymm hq (Nat.le_of_not_lt hlt), fun hr => absurd rfl hr⟩

/-- C3: `solver_propagate` returns `INVALID_CLAUSE` exactly on
saturation — in that case `qhead = trail_size` on return, i.e. the
trail is fully propagated — while a `BINARY_CONFLICT` return exhibits a
falsified binary watch (a watch with `cref = INVALID_CLAUSE` both of
whose literals are false), and any other return value is the `CRef` of
a stored clause all of whose literals are false (a genuine conflict
clause).  The hypotheses are the propagation well-formedness
invariants: all trail literals true, every non-binary watch references
a stored clause of at least two distinct literals watched on one of its
first two positions, no clause watched twice on one list, and
`qhead ≤ trail_size`. -/
theorem solver_propagate_spec (fuel : Nat) (s : Solver)
    (hinv : PropInv s) (hq : s.qhead ≤ s.trail.length)
    (r : CRef) (s' : Solver)
    (h : solver_propagate fuel s = some (r, s')) :
    (r = INVALID_CLAUSE → s'.qhead = s'.trail.length) ∧
    (r = BINARY_CONFLICT → ∃ l q, (⟨INVALID_CLAUSE, q⟩ : Watch) ∈ s'.watches l ∧
        litValFalse ((s'.vars (litVar l)).value) l = true ∧
        litValFalse ((s'.vars (litVar q)).value) q = true) ∧
    (r ≠ INVALID_CLAUSE → r ≠ BINARY_CONFLICT →
        ∃ cl, arenaGet s'.arena r = some cl ∧
          ∀ l ∈ cl.lits, litValFalse ((s'.vars (litVar l)).value) l = true) := by
  obtain ⟨h1, h2⟩ := propagateLoop_spec fuel s hinv hq r s' h
  refine ⟨h1, ?_, ?_⟩
  · intro hr
    have hne : r ≠ INVALID_CLAUSE := by
      rw [hr, BINARY_CONFLICT, INVALID_CLAUSE]
      norm_num
    rcases h2 hne with ⟨_, hbw⟩ | ⟨hltc, _⟩
    · exact hbw
    · rw [hr, BINARY_CONFLICT] at hltc
      exact absurd hltc (by norm_num)
  · intro hne hnb
    rcases h2 hne with ⟨hbc, _⟩ | ⟨_, hcl⟩
    · exact absurd hbc hnb
    · exact hcl

/-- Witness for C3: on a fully propagated concrete state the loop
returns `INVALID_CLAUSE` with the queue equal to the trail size. -/
theorem solver_propagate_spec_witness :
    btState.qhead ≤ btState.trail.length ∧
    solver_propagate 1 btState = some (INVALID_CLAUSE, btState) ∧
    btState.qhead = btState.trail.length :=
  ⟨by decide, rfl,
    (solver_propagate_spec 1 btState
      ⟨fun e he => by obtain rfl := List.mem_singleton.mp he; decide,
        fun _ w hw _ => absurd hw (List.not_mem_nil w),
        fun _ => List.nodup_nil⟩
      (by decide) INVALID_CLAUSE btState rfl).1 rfl⟩

set_option maxRecDepth 16000 in
/-- C4 counterexample: on `anState` (decision levels 1, 2, 3; conflict
clause `[7, 3, 5]` at offset 1) analysis learns `[7, 3, 5]` with
backtrack level 2 — but the literal at index 1 (literal 3, variable 1)
sits at level 1, while the second-highest level present, 2, is realised
by the literal at index 2.  The index-1 sentence of the claim fails;
the backtrack-level sentence holds. -/
theorem analyze_second_highest_not_at_index1 :
    (solver_analyze 4 anState 1).map (fun r => (r.2.1, r.2.2)) = some ([7, 3, 5], 2) ∧
    (anState.vars (litVar (([7, 3, 5] : List Lit).getD 1 0))).level = 1 ∧
    (anState.vars (litVar (([7, 3, 5] : List Lit).getD 2 0))).level = 2 ∧
    ¬ (anState.vars (litVar (([7, 3, 5] : List Lit).getD 1 0))).level = 2 :=
  ⟨by with_unfolding_all rfl, by decide, by decide, by decide⟩

lemma AFrame_refl (s : Solver) : AFrame s s :=
  ⟨fun _ => rfl, rfl, rfl, rfl, fun _ => rfl⟩

lemma AFrame_trans {s2 s1 s0 : Solver} (h2 : AFrame s2 s1) (h1 : AFrame s1 s0) :
    AFrame s2 s0 :=
  ⟨fun u => (h2.1 u).trans (h1.1 u), h2.2.1.trans h1.2.1, h2.2.2.1.trans h1.2.2.1,
    h2.2.2.2.1.trans h1.2.2.2.1, fun u => (h2.2.2.2.2 u).trans (h1.2.2.2.2 u)⟩

lemma AFrame_of_eraseHeap {s' s : Solver} (h : eraseHeap s' = eraseHeap s) :
    AFrame s' s :=
  ⟨eraseHeap_vars_level h, congrArg (fun t => t.decision_level) h,
    congrArg (fun t => t.trail) h, congrArg (fun t => t.arena) h,
    eraseHeap_vars_reason h⟩

lemma AFrame_rescale (s : Solver) : AFrame (rescaleAll s) s := by
  refine ⟨?_, rfl, rfl, rfl, ?_⟩ <;> intro u <;>
    by_cases h : 1 ≤ u ∧ u ≤ s.num_vars <;> simp [rescaleAll, h]

lemma AFrame_actUpd (s : Solver) (v : Var) (inc : ℚ) :
    AFrame { s with
      vars := updVar s.vars v (fun r => { r with activity := r.activity + inc }) } s := by
  refine ⟨?_, rfl, rfl, rfl, ?_⟩ <;> intro u <;>
    by_cases h : u = v <;> simp [updVar, h]

lemma eraseHeap_heap_percolate_up (s : Solver) (i : Nat) :
    eraseHeap (heap_percolate_up s i) = eraseHeap s :=
  eraseHeap_percUpGo _ _ _ s i

lemma AFrame_bump (s : Solver) (v : Var) (inc : ℚ) :
    AFrame (bump_var_activity s v inc) s := by
  simp only [bump_var_activity]
  split
  · split
    · exact AFrame_trans (AFrame_rescale _)
        (AFrame_trans (AFrame_of_eraseHeap (eraseHeap_heap_percolate_up _ _))
          (AFrame_actUpd s v inc))
    · exact AFrame_trans (AFrame_of_eraseHeap (eraseHeap_heap_percolate_up _ _))
        (AFrame_actUpd s v inc)
  · split
    · exact AFrame_trans (AFrame_rescale _) (AFrame_actUpd s v inc)
    · exact AFrame_actUpd s v inc

lemma AFrame_seenUpd (s : Solver) (f : Var → Nat) :
    AFrame { s with seen := f } s :=
  ⟨fun _ => rfl, rfl, rfl, rfl, fun _ => rfl⟩

set_option maxRecDepth 16000 in
lemma analyzeLit_inv {s₀ : Solver} {st : AnSt} (q : Lit) (h : AnInv s₀ st) :
    AnInv s₀ (analyzeLit st q) := by
  rw [analyzeLit]
  by_cases h1 : st.s.seen (litVar q) = 0
  · rw [if_pos h1]
    by_cases h2 : 0 < (st.s.vars (litVar q)).level
    · rw [if_pos h2]
      by_cases h3 : (st.s.vars (litVar q)).level ≥ st.s.decision_level
      · rw [if_pos h3]
        exact ⟨AFrame_trans (AFrame_bump _ _ _)
          (AFrame_trans (AFrame_seenUpd _ _) h.1), h.2.1, h.2.2.1, h.2.2.2⟩
      · rw [if_neg h3]
        have hlvl0 : (st.s.vars (litVar q)).level = (s₀.vars (litVar q)).level := h.1.1 _
        have hdl : st.s.decision_level = s₀.decision_level := h.1.2.1
        refine ⟨AFrame_trans (AFrame_bump _ _ _)
          (AFrame_trans (AFrame_seenUpd _ _) h.1), ?_, ?_, ?_⟩
        · intro x hx
          rcases List.mem_append.mp hx with hx | hx
          · exact h.2.1 x hx
          · have hxq : x = q := by simpa using hx
            rw [hxq]
            refine ⟨by rw [← hlvl0]; exact h2, ?_⟩
            rw [← hlvl0, ← hdl]
            exact Nat.lt_of_not_le h3
        · intro x hx
          rcases List.mem_append.mp hx with hx | hx
          · refine le_trans (h.2.2.1 x hx) ?_
            by_cases hbt : st.bt < (st.s.vars (litVar q)).level
            · rw [if_pos hbt]; exact le_of_lt hbt
            · rw [if_neg hbt]
          · have hxq : x = q := by simpa using hx
            rw [hxq, ← hlvl0]
            by_cases hbt : st.bt < (st.s.vars (litVar q)).level
            · rw [if_pos hbt]
            · rw [if_neg hbt]; exact Nat.le_of_not_lt hbt
        · by_cases hbt : st.bt < (st.s.vars (litVar q)).level
          · rw [if_pos hbt]
            right
            exact ⟨q, List.mem_append_right _ (by simp), hlvl0.symm⟩
          · rw [if_neg hbt]
            rcases h.2.2.2 with hb | ⟨x, hx, hxe⟩
            · exact Or.inl hb
            · exact Or.inr ⟨x, List.mem_append_left _ hx, hxe⟩
    · rw [if_neg h2]; exact h
  · rw [if_neg h1]; exact h

lemma analyzeScan_inv {s₀ : Solver} :
    ∀ (qs : List Lit) (st : AnSt), AnInv s₀ st → AnInv s₀ (analyzeScan st qs) := by
  intro qs
  induction qs with
  | nil => intro st h; exact h
  | cons q qs ih =>
    intro st h
    rw [analyzeScan, List.foldl_cons]
    exact ih (analyzeLit st q) (analyzeLit_inv q h)

lemma analyzeExpand_inv {s₀ : Solver} (st : AnSt) (reason : CRef)
    (h : AnInv s₀ st) : AnInv s₀ (analyzeExpand st reason) := by
  rw [analyzeExpand]
  by_cases h0 : st.pathC = 0
  · rw [if_pos h0]; exact h
  · rw [if_neg h0]
    by_cases hr : reason = INVALID_CLAUSE
    · rw [if_pos hr]; exact h
    · rw [if_neg hr]
      exact analyzeScan_inv _ _ h

lemma analyzeIter_inv {s₀ : Solver} (st : AnSt) (i : Nat)
    (h : AnInv s₀ st) : AnInv s₀ (analyzeIter st i) := by
  rw [analyzeIter]
  refine analyzeExpand_inv _ _ ⟨AFrame_trans (AFrame_seenUpd _ _) h.1,
    h.2.1, h.2.2.1, h.2.2.2⟩

lemma analyzeLoop_inv (s₀ : Solver) :
    ∀ (fuel : Nat) (st : AnSt) (index : Nat) (p : Lit) (s' : Solver) (pout : Lit)
      (tail : List Lit) (bt : Nat),
      AnInv s₀ st →
      analyzeLoop fuel st index p = some (s', pout, tail, bt) →
      AnInv s₀ ⟨s', 0, tail, bt⟩ := by
  intro fuel
  induction fuel with
  | zero =>
    intro st index p s' pout tail bt _ h
    exact Option.noConfusion h
  | succ fuel ih =>
    intro st index p s' pout tail bt hinv h
    rw [analyzeLoop] at h
    by_cases h0 : st.pathC = 0
    · rw [if_pos h0] at h
      have h' := Option.some.inj h
      rw [Prod.mk.injEq, Prod.mk.injEq, Prod.mk.injEq] at h'
      obtain ⟨h1, _, h3, h4⟩ := h'
      rw [← h1, ← h3, ← h4]
      exact ⟨hinv.1, hinv.2.1, hinv.2.2.1, hinv.2.2.2⟩
    · rw [if_neg h0] at h
      exact ih _ _ _ s' pout tail bt (analyzeIter_inv _ _ hinv) h

set_option maxRecDepth 16000 in
/-- C4 (amended): for every conflict analysed by `solver_analyze`, the
learnt clause has the negation of the 1-UIP literal at index 0 and the
remaining literals at levels strictly between 0 and the conflict
decision level; the returned backtrack level is exactly the maximum
decision level among `learnt[1..]` — the second-highest level present
in the clause — and 0 when the learnt clause is unit.  (The literal
stored at index 1 is the first lower-level literal discovered, not
necessarily one of the second-highest level; see the counterexample.) -/
theorem solver_analyze_spec (fuel : Nat) (s : Solver) (conflict : CRef)
    (s' : Solver) (learnt : List Lit) (bt : Nat)
    (h : solver_analyze fuel s conflict = some (s', learnt, bt)) :
    (∃ p, learnt = litNeg p :: learnt.drop 1) ∧
    (∀ q ∈ learnt.drop 1, 0 < (s.vars (litVar q)).level ∧
        (s.vars (litVar q)).level < s.decision_level) ∧
    (∀ q ∈ learnt.drop 1, (s.vars (litVar q)).level ≤ bt) ∧
    (bt = 0 ∨ ∃ q ∈ learnt.drop 1, (s.vars (litVar q)).level = bt) := by
  rw [solver_analyze] at h
  by_cases hb : conflict = BINARY_CONFLICT
  · rw [if_pos hb] at h
    rcases hm : analyzeLoop fuel
        { s := bump_var_activity
            { s with seen := updSeen s.seen (litVar ((s.trail.getD (s.trail.length - 1) default).lit)) 1 }
            (litVar ((s.trail.getD (s.trail.length - 1) default).lit)) s.order.var_inc,
          pathC := 1, learnt := [], bt := 0 }
        (s.trail.length - 1) LIT_UNDEF with _ | ⟨s2, p2, tail2, bt2⟩
    · rw [hm] at h
      exact Option.noConfusion h
    · rw [hm] at h
      have h' : some (clearSeen s2 (litNeg p2 :: tail2), litNeg p2 :: tail2, bt2)
          = some (s', learnt, bt) := h
      have h'' := Option.some.inj h'
      rw [Prod.mk.injEq, Prod.mk.injEq] at h''
      obtain ⟨_, hl, hbt⟩ := h''
      have hinv0 : AnInv s
          { s := bump_var_activity
              { s with seen := updSeen s.seen (litVar ((s.trail.getD (s.trail.length - 1) default).lit)) 1 }
              (litVar ((s.trail.getD (s.trail.length - 1) default).lit)) s.order.var_inc,
            pathC := 1, learnt := [], bt := 0 } :=
        ⟨AFrame_trans (AFrame_bump _ _ _) (AFrame_seenUpd _ _),
          fun x hx => absurd hx (List.not_mem_nil x),
          fun x hx => absurd hx (List.not_mem_nil x), Or.inl rfl⟩
      have hloop := analyzeLoop_inv s fuel _ _ _ s2 p2 tail2 bt2 hinv0 hm
      have hdrop : learnt.drop 1 = tail2 := by rw [← hl]; simp
      refine ⟨⟨p2, by rw [← hl]; simp⟩, ?_, ?_, ?_⟩
      · rw [hdrop]; exact hloop.2.1
      · rw [hdrop, ← hbt]; exact hloop.2.2.1
      · rw [hdrop, ← hbt]; exact hloop.2.2.2
  · rw [if_neg hb] at h
    by_cases hi : conflict = INVALID_CLAUSE
    · rw [if_pos hi] at h
      exact Option.noConfusion h
    · rw [if_neg hi] at h
      rcases hm : analyzeLoop fuel
          (analyzeScan { s := s, pathC := 0, learnt := [], bt := 0 }
            (clauseLitsAt s.arena conflict))
          (s.trail.length - 1) LIT_UNDEF with _ | ⟨s2, p2, tail2, bt2⟩
      · rw [hm] at h
        exact Option.noConfusion h
      · rw [hm] at h
        have h' : some (clearSeen s2 (litNeg p2 :: tail2), litNeg p2 :: tail2, bt2)
            = some (s', learnt, bt) := h
        have h'' := Option.some.inj h'
        rw [Prod.mk.injEq, Prod.mk.injEq] at h''
        obtain ⟨_, hl, hbt⟩ := h''
        have hinv0 : AnInv s (analyzeScan { s := s, pathC := 0, learnt := [], bt := 0 }
            (clauseLitsAt s.arena conflict)) :=
          analyzeScan_inv _ _ ⟨AFrame_refl s,
            fun x hx => absurd hx (List.not_mem_nil x),
            fun x hx => absurd hx (List.not_mem_nil x), Or.inl rfl⟩
        have hloop := analyzeLoop_inv s fuel _ _ _ s2 p2 tail2 bt2 hinv0 hm
        have hdrop : learnt.drop 1 = tail2 := by rw [← hl]; simp
        refine ⟨⟨p2, by rw [← hl]; simp⟩, ?_, ?_, ?_⟩
        · rw [hdrop]; exact hloop.2.1
        · rw [hdrop, ← hbt]; exact hloop.2.2.1
        · rw [hdrop, ← hbt]; exact hloop.2.2.2

/-- Witness for the amended C4 theorem on `anWit`: analysing the
stored clause `[3]` (whose variable sits at level 0) learns the unit
clause `[1]` with backtrack level 0. -/
theorem solver_analyze_spec_witness :
    (∃ p, ([1] : List Lit) = litNeg p :: ([1] : List Lit).drop 1) ∧
    (∀ q ∈ ([1] : List Lit).drop 1, 0 < (anWit.vars (litVar q)).level ∧
        (anWit.vars (litVar q)).level < anWit.decision_level) ∧
    (∀ q ∈ ([1] : List Lit).drop 1, (anWit.vars (litVar q)).level ≤ 0) ∧
    ((0 : Nat) = 0 ∨ ∃ q ∈ ([1] : List Lit).drop 1, (anWit.vars (litVar q)).level = 0) :=
  solver_analyze_spec 2 anWit 1
    ((Option.map Prod.fst (solver_analyze 2 anWit 1)).getD baseSolver) [1] 0 rfl

end BSat
